import Mathlib

/-
  Verification of the purchase-order migration error analysis tool
  (src/po_error_analysis.py) against its specification.

  The Python source is shallowly embedded: strings are modelled as
  `String` or `List Char`, pandas cells as `Option String` (none = NA),
  dictionaries as association lists with overwrite-on-assignment, and the
  relevant functions are translated line by line into executable Lean
  definitions.  Theorems then settle the specification claims.
-/

set_option maxRecDepth 100000

/-! ## Basic Python string primitives -/

/-- Character class of Python `str.strip()` and of the regex class `\s`
(ASCII fragment). -/
def isPySpace (c : Char) : Bool :=
  c = ' ' || c = '\t' || c = '\n' || c = '\r' || c = '\x0b' || c = '\x0c'

/-- ASCII fragment of the regex class `\w` (letters, digits, underscore). -/
def isWordChar (c : Char) : Bool :=
  c.isAlpha || c.isDigit || c = '_'

/-- Character class of the regex `[A-Z0-9]`. -/
def isUpperAlnum (c : Char) : Bool :=
  ('A' ≤ c && c ≤ 'Z') || c.isDigit

/-- Python `str.strip()` on a character list. -/
def pyStrip (l : List Char) : List Char :=
  ((l.dropWhile isPySpace).reverse.dropWhile isPySpace).reverse

/-- Python `str.strip()` on a `String`. -/
def pyStripStr (s : String) : String :=
  String.mk (pyStrip s.data)

/-- Python `str.replace(pat, rep)`: non-overlapping left-to-right textual
replacement on character lists. -/
def replaceSub (pat rep : List Char) (l : List Char) : List Char :=
  match l with
  | [] => []
  | c :: t =>
    if pat ≠ [] ∧ pat.isPrefixOf (c :: t) then
      rep ++ replaceSub pat rep ((c :: t).drop pat.length)
    else
      c :: replaceSub pat rep t
termination_by l.length
decreasing_by
  · rename_i h
    have hp : 0 < pat.length := List.length_pos.mpr h.1
    simp only [List.length_drop, List.length_cons]
    omega
  · simp [Nat.lt_succ_self]

/-- Number of non-overlapping occurrences of `pat` in `l`, scanning left to
right (the matches Python `str.replace` would rewrite). -/
def countSub (pat : List Char) (l : List Char) : Nat :=
  match l with
  | [] => 0
  | c :: t =>
    if pat ≠ [] ∧ pat.isPrefixOf (c :: t) then
      1 + countSub pat ((c :: t).drop pat.length)
    else
      countSub pat t
termination_by l.length
decreasing_by
  · rename_i h
    have hp : 0 < pat.length := List.length_pos.mpr h.1
    simp only [List.length_drop, List.length_cons]
    omega
  · simp [Nat.lt_succ_self]

/-! ## Edit ledger (claim C6; source lines 677-690, 1295, 1344) -/

/-- One entry of the edit ledger, mirroring the `change` dictionaries built
in `create_editable_dataframe` (timestamps are abstracted to a number). -/
structure EditEntry where
  sheet : String
  column : String
  row : Nat
  old_value : String
  new_value : String
  timestamp : Nat
  error_reference : Option String
deriving DecidableEq, Repr

/-- The duplicate test of source lines 681-687: two entries collide when
sheet, column, row and new value all agree. -/
def sameEdit (existing change : EditEntry) : Bool :=
  existing.sheet == change.sheet && existing.column == change.column &&
    existing.row == change.row && existing.new_value == change.new_value

/-- Source lines 677-690: append a change to the edit history unless an
entry with the same (sheet, column, row, new value) already exists. -/
def recordEdit (edit_history : List EditEntry) (change : EditEntry) : List EditEntry :=
  if edit_history.any (fun existing => sameEdit existing change) then edit_history
  else edit_history ++ [change]

/-- The three ledger operations: record (lines 677-690), delete
(`edit_history.pop(i)`, line 1295), clear (line 1344). -/
inductive LedgerOp where
  | record (e : EditEntry)
  | delete (i : Nat)
  | clear

/-- Apply one ledger operation. -/
def applyLedgerOp (h : List EditEntry) : LedgerOp → List EditEntry
  | .record e => recordEdit h e
  | .delete i => h.eraseIdx i
  | .clear => []

/-- Apply a sequence of ledger operations to a history, first one first. -/
def applyLedgerOps (ops : List LedgerOp) (h : List EditEntry) : List EditEntry :=
  ops.foldl applyLedgerOp h

/-- The ledger invariant: no two entries share (sheet, column, row, new
value). -/
def LedgerNoDup (h : List EditEntry) : Prop :=
  h.Pairwise (fun a b => sameEdit a b = false)

/-! ## Zero-padding variants (claim C8; source lines 403-427) -/

/-- Python `list(dict.fromkeys(l))`: drop later duplicates, keeping the
first occurrence of each element. -/
def dictFromKeys : List String → List String
  | [] => []
  | a :: l => a :: dictFromKeys (l.filter (fun b => b ≠ a))
termination_by l => l.length
decreasing_by
  simp only [List.length_cons]
  exact Nat.lt_succ_of_le (List.length_filter_le _ _)

/-- Python `str.zfill(width)`. -/
def pyZfill (s : String) (width : Nat) : String :=
  if width ≤ s.length then s
  else
    match s.data with
    | '+' :: rest => String.mk ('+' :: (List.replicate (width - s.length) '0' ++ rest))
    | '-' :: rest => String.mk ('-' :: (List.replicate (width - s.length) '0' ++ rest))
    | l => String.mk (List.replicate (width - s.length) '0' ++ l)

/-- Python `str.lstrip('0')`. -/
def pyLstripZeros (s : String) : String :=
  String.mk (s.data.dropWhile (fun c => c = '0'))

/-- Source lines 405-413: the zero-padding variants of a material number,
de-duplicated preserving order. -/
def material_variants (material_number : String) : List String :=
  dictFromKeys [material_number, pyZfill material_number 10,
    pyZfill material_number 18, pyLstripZeros material_number]

/-- A row of the Item Data sheet, reduced to its dataframe identity and its
MATNR value (the only column the material lookup consults). -/
structure ItemRow where
  idx : Nat
  matnr : String
deriving DecidableEq, Repr

/-- Source lines 416-427: concatenate, variant by variant, the rows whose
MATNR equals that variant. -/
def searchMaterialRecords (df : List ItemRow) (material_number : String) : List ItemRow :=
  (material_variants material_number).flatMap
    (fun variant => df.filter (fun r => r.matnr == variant))

/-! ## Header mapping resolver (claim C3; source lines 216-239, 262-278, 701-710) -/

/-- Python dict assignment `d[k] = v` on an association list: overwrite in
place when the key exists, append otherwise. -/
def setKey (m : List (String × String)) (k v : String) : List (String × String) :=
  if m.any (fun p => p.1 == k) then m.map (fun p => if p.1 == k then (k, v) else p)
  else m ++ [(k, v)]

/-- Python dict lookup `d.get(k)` on an association list. -/
def lookupKey (m : List (String × String)) (k : String) : Option String :=
  (m.find? (fun p => p.1 == k)).map (fun p => p.2)

/-- Source lines 230-236 (`parse_header_mappings`), one metadata row for a
fixed sheet: store both directions in the same table. -/
def add_header_mapping (m : List (String × String)) (description technical_name : String) :
    List (String × String) :=
  if description = "" || technical_name = "" then m
  else setKey (setKey m technical_name description) description technical_name

/-- Source lines 701-710 (`get_technical_name`): one hop plus a reciprocity
check, identity otherwise. -/
def get_technical_name (m : List (String × String)) (descriptive_name : String) : String :=
  match lookupKey m descriptive_name with
  | none => descriptive_name
  | some tech_name =>
    match lookupKey m tech_name with
    | some back => if back = descriptive_name then tech_name else descriptive_name
    | none => descriptive_name

/-- Source lines 268-272 (`convert_to_descriptive_headers`, per column):
a single unconditional hop through the table. -/
def to_descriptive_header (m : List (String × String)) (col : String) : String :=
  match lookupKey m col with
  | some d => d
  | none => col

/-! ## Reference extractor (claims C4 and C10; source lines 1145-1204) -/

/-- One entry of the `patterns` list (source lines 1151-1179).  Every
pattern there is a sequence of literal segments separated by optional
whitespace, ending in a single capture group of digits or word
characters.  `ignoreCase` mirrors the optional `re.IGNORECASE` flag. -/
structure RefPattern where
  segs : List String
  field : String
  capWord : Bool
  ignoreCase : Bool

/-- Match a literal segment at the head of the input, optionally
case-insensitively, returning the rest of the input. -/
def litMatch (ci : Bool) : List Char → List Char → Option (List Char)
  | [], rest => some rest
  | _ :: _, [] => none
  | p :: ps, c :: cs =>
    if (if ci then p.toLower = c.toLower else p = c) then litMatch ci ps cs else none

/-- Match the literal segments of a pattern in order, each followed by
`\s*`. -/
def segsMatch (ci : Bool) : List String → List Char → Option (List Char)
  | [], l => some l
  | s :: ss, l =>
    match litMatch ci s.data l with
    | none => none
    | some rest => segsMatch ci ss (rest.dropWhile isPySpace)

/-- Attempt to match a whole pattern anchored at the head of the input,
returning the captured group (greedy, at least one character). -/
def ruleMatchAt (r : RefPattern) (l : List Char) : Option String :=
  match segsMatch r.ignoreCase r.segs l with
  | none => none
  | some rest =>
    match rest.takeWhile (fun c => if r.capWord then isWordChar c else c.isDigit) with
    | [] => none
    | cap => some (String.mk cap)

/-- Python `re.search` for one pattern: try every start position from the
left, first success wins. -/
def searchRule (r : RefPattern) : List Char → Option String
  | [] => ruleMatchAt r []
  | c :: t =>
    match ruleMatchAt r (c :: t) with
    | some v => some v
    | none => searchRule r t

/-- The ordered rule list of source lines 1151-1179, verbatim. -/
def reference_patterns : List RefPattern :=
  [⟨["Source Record:"], "EBELN", false, false⟩,
   ⟨["PO"], "EBELN", false, false⟩,
   ⟨["purchase order"], "EBELN", false, true⟩,
   ⟨["Purch.", "Doc."], "EBELN", false, false⟩,
   ⟨["material"], "MATNR", false, true⟩,
   ⟨["Material"], "MATNR", false, false⟩,
   ⟨["MATNR:"], "MATNR", false, false⟩,
   ⟨["vendor"], "LIFNR", false, true⟩,
   ⟨["Vendor"], "LIFNR", false, false⟩,
   ⟨["LIFNR:"], "LIFNR", false, false⟩,
   ⟨["plant"], "WERKS", true, true⟩,
   ⟨["Plant"], "WERKS", true, false⟩,
   ⟨["purchasing group"], "EKGRP", true, true⟩,
   ⟨["Purchasing Group"], "EKGRP", true, false⟩,
   ⟨["account assignment"], "KNTTP", true, true⟩,
   ⟨["Acc.", "Ass.", "Cat."], "KNTTP", true, false⟩]

/-- Source lines 1181-1185: evaluate the rules in order, first match wins,
returning the field name and the captured value. -/
def firstRuleMatch : List RefPattern → List Char → Option (String × String)
  | [], _ => none
  | r :: rs, l =>
    match searchRule r l with
    | some v => some (r.field, v)
    | none => firstRuleMatch rs l

/-- Scanner for `re.search` of a pattern of the form `\b(cls⁶⁺)\b` where
every character of `cls` is a word character: find the leftmost maximal
run of `cls` characters that starts at a word boundary, has the required
length, and is followed by a non-word character or the end. -/
def searchBareRunGo (cls : Char → Bool) (minLen : Nat) : Bool → List Char → Option (List Char)
  | _, [] => none
  | atBoundary, c :: t =>
    if cls c && atBoundary then
      let run := c :: t.takeWhile cls
      let rest := t.dropWhile cls
      if minLen ≤ run.length &&
          (match rest.head? with | none => true | some d => !isWordChar d) then
        some run
      else searchBareRunGo cls minLen false rest
    else searchBareRunGo cls minLen (!isWordChar c) t
termination_by _ l => l.length
decreasing_by
  · simp only [List.length_cons]
    exact Nat.lt_succ_of_le (List.dropWhile_sublist _).length_le
  · simp [Nat.lt_succ_self]

/-- Entry point of the bare-run scanner: the start of the string is a
boundary. -/
def searchBareRun (cls : Char → Bool) (minLen : Nat) (l : List Char) : Option (List Char) :=
  searchBareRunGo cls minLen true l

/-- Source lines 1150-1204 (`extract_error_reference`, string branch):
the ordered rule cascade, then the bare digit-run fallback classified by
length, then the bare uppercase-alphanumeric fallback, then the
sentinel. -/
def extract_ref_from_string (error_message : String) : String :=
  let l := error_message.data
  match firstRuleMatch reference_patterns l with
  | some (field_name, value) => field_name ++ ": " ++ value
  | none =>
    match searchBareRun (fun c => c.isDigit) 6 l with
    | some run =>
      if run.length = 10 then "EBELN: " ++ String.mk run
      else if run.length = 18 then "MATNR: " ++ String.mk run
      else "Reference: " ++ String.mk run
    | none =>
      match searchBareRun isUpperAlnum 6 l with
      | some run => "Code: " ++ String.mk run
      | none => "No specific reference"

/-- A Python value passed to `extract_error_reference`: either a string or
anything else (NaN, None, a number, ...). -/
inductive PyValue where
  | pyStr (s : String)
  | nonString
deriving DecidableEq

/-- Source lines 1145-1204 (`extract_error_reference`): non-strings short
circuit to the distinct sentinel of line 1148. -/
def extract_error_reference : PyValue → String
  | .nonString => "No reference"
  | .pyStr s => extract_ref_from_string s

/-- Source lines 645-649: the guard deciding whether a reference value is
attached to an edit entry (`if error_reference and error_reference !=
"No specific reference"`; a Python string is truthy when non-empty). -/
def attachErrorReference (error_reference : String) : Bool :=
  error_reference != "" && error_reference != "No specific reference"

/-- Specification-side description of a bare run: split the input into its
maximal word-character runs and take the first one that lies wholly in the
class and is long enough. -/
def wordRuns : List Char → List (List Char)
  | [] => []
  | c :: t =>
    if isWordChar c then (c :: t.takeWhile isWordChar) :: wordRuns (t.dropWhile isWordChar)
    else wordRuns t
termination_by l => l.length
decreasing_by
  · simp only [List.length_cons]
    exact Nat.lt_succ_of_le (List.dropWhile_sublist _).length_le
  · simp [Nat.lt_succ_self]

/-- Specification-side bare-run search (claim C4 wording). -/
def specBareRun (cls : Char → Bool) (minLen : Nat) (l : List Char) : Option (List Char) :=
  (wordRuns l).find? (fun run => run.all cls && minLen ≤ run.length)

/-- Claim C4 restated as an algorithm: the rule list evaluated in order
with the first match winning, then the digit-run fallback classified by
exact length, then the uppercase-alphanumeric fallback, then the
sentinel. -/
def claimC4Spec (s : String) : String :=
  let l := s.data
  match reference_patterns.findSome?
      (fun r => (searchRule r l).map (fun v => (r.field, v))) with
  | some (field_name, value) => field_name ++ ": " ++ value
  | none =>
    match specBareRun (fun c => c.isDigit) 6 l with
    | some run =>
      if run.length = 10 then "EBELN: " ++ String.mk run
      else if run.length = 18 then "MATNR: " ++ String.mk run
      else "Reference: " ++ String.mk run
    | none =>
      match specBareRun isUpperAlnum 6 l with
      | some run => "Code: " ++ String.mk run
      | none => "No specific reference"

/-! ## Change detection and baseline guard (claims C5, C7; source lines 559-698) -/

/-- A pandas cell: `none` models NA (missing), `some s` a string value. -/
abbrev PCell := Option String

/-- Python `str(cell)` on a cell that may be NA (`str(pd.NA)`). -/
def pyStrCell : PCell → String
  | some s => s
  | none => "<NA>"

/-- Source lines 615-616: `str(x) if pd.notna(x) else ""`. -/
def strOrEmpty : PCell → String
  | some s => s
  | none => ""

/-- Positional cell access `df.iloc[i, j]` on a dense row list. -/
def getCell (rows : List (List PCell)) (i j : Nat) : PCell :=
  (rows.getD i []).getD j none

/-- Source lines 647-649 and 671-673: the reference attached to a change
entry, or nothing when the guard rejects it. -/
def attachedRef (error_reference : Option String) : Option String :=
  match error_reference with
  | some r => if attachErrorReference r then some r else none
  | none => none

/-- Source lines 626-675: the change-detection diff.  `cols` are the
columns of the edited working copy, `ocols` the column count of the
baseline; the first loop walks the rows present in both, the second the
rows appended beyond the baseline length.  Changes are appended to an
accumulator exactly as the Python loops append to `changes`. -/
def diff_changes (sheet_name : String) (m : List (String × String))
    (error_reference : Option String) (ts : Nat)
    (cols : List String) (ocols : Nat)
    (original edited : List (List PCell)) : List EditEntry :=
  let changes1 := (List.range (min edited.length original.length)).foldl (fun acc i =>
    (List.range cols.length).foldl (fun acc2 j =>
      let new_value := getCell edited i j
      let old_value := if j < ocols then getCell original i j else some ""
      if new_value.isSome && pyStrCell new_value != pyStrCell old_value then
        acc2 ++ [{ sheet := sheet_name,
                   column := get_technical_name m (cols.getD j ""),
                   row := i,
                   old_value := pyStrCell old_value,
                   new_value := pyStrCell new_value,
                   timestamp := ts,
                   error_reference := attachedRef error_reference }]
      else acc2) acc) []
  if original.length < edited.length then
    (List.range' original.length (edited.length - original.length)).foldl (fun acc i =>
      (List.range cols.length).foldl (fun acc2 j =>
        let new_value := getCell edited i j
        if new_value.isSome then
          acc2 ++ [{ sheet := sheet_name,
                     column := get_technical_name m (cols.getD j ""),
                     row := i,
                     old_value := "",
                     new_value := pyStrCell new_value,
                     timestamp := ts,
                     error_reference := attachedRef error_reference }]
        else acc2) acc) changes1
  else changes1

/-- Claim C7 restated: for each row present in both tables, exactly one
entry per cell whose working value is present and differs (as text) from
the baseline value, carrying old = baseline value and new = working
value; for each appended row, exactly one entry per present cell with
old = empty text; nothing else, in that order. -/
def c7_spec (sheet_name : String) (m : List (String × String))
    (error_reference : Option String) (ts : Nat)
    (cols : List String)
    (original edited : List (List PCell)) : List EditEntry :=
  ((List.range (min edited.length original.length)).flatMap (fun i =>
    (List.range cols.length).filterMap (fun j =>
      let new_value := getCell edited i j
      let old_value := getCell original i j
      if new_value.isSome && pyStrCell new_value != pyStrCell old_value then
        some { sheet := sheet_name,
               column := get_technical_name m (cols.getD j ""),
               row := i,
               old_value := pyStrCell old_value,
               new_value := pyStrCell new_value,
               timestamp := ts,
               error_reference := attachedRef error_reference }
      else none))) ++
  ((List.range' original.length (edited.length - original.length)).flatMap (fun i =>
    (List.range cols.length).filterMap (fun j =>
      let new_value := getCell edited i j
      if new_value.isSome then
        some { sheet := sheet_name,
               column := get_technical_name m (cols.getD j ""),
               row := i,
               old_value := "",
               new_value := pyStrCell new_value,
               timestamp := ts,
               error_reference := attachedRef error_reference }
      else none)))

/-- A displayed dataframe: column labels plus dense rows. -/
structure DTable where
  cols : List String
  rows : List (List PCell)
deriving DecidableEq, Repr

/-- Python `del d[k]` on an association list. -/
def eraseKeyT (m : List (String × DTable)) (k : String) : List (String × DTable) :=
  m.filter (fun p => p.1 != k)

/-- Python dict lookup for baseline tables. -/
def lookupKeyT (m : List (String × DTable)) (k : String) : Option DTable :=
  (m.find? (fun p => p.1 == k)).map (fun p => p.2)

/-- Python dict assignment for baseline tables. -/
def setKeyT (m : List (String × DTable)) (k : String) (v : DTable) : List (String × DTable) :=
  if m.any (fun p => p.1 == k) then m.map (fun p => if p.1 == k then (k, v) else p)
  else m ++ [(k, v)]

/-- The per-sheet session state touched by `create_editable_dataframe`:
the error identity currently tracked for the sheet
(`st.session_state[current_error_...]`), the stored baselines keyed by
error identity (`st.session_state[original_df_...]`, one key per
`key_prefix`), and the edit ledger. -/
structure SessionState where
  tracking : Option String
  baselines : List (String × DTable)
  edit_history : List EditEntry
deriving DecidableEq, Repr

/-- Source lines 559-698 (`create_editable_dataframe`) for one sheet:
`display_df` is the working copy handed to the editor, `edited_df` the
table the editor returns (equal to `display_df` when the operator made no
edit).  Mirrors the source: tracking reset on an error switch, baseline
initialisation, the structure and first-row content guards, the diff,
de-duplicated recording, and the baseline updates of both branches. -/
def create_editable_dataframe_step (m : List (String × String))
    (sheet_name key_prefix : String) (display_df edited_df : DTable)
    (error_reference : Option String) (ts : Nat) (s0 : SessionState) : SessionState :=
  let s1 : SessionState :=
    match s0.tracking with
    | none => { s0 with tracking := some key_prefix }
    | some k =>
      if k ≠ key_prefix then
        { s0 with baselines := eraseKeyT s0.baselines key_prefix,
                  tracking := some key_prefix }
      else s0
  let s2 : SessionState :=
    if (lookupKeyT s1.baselines key_prefix).isNone then
      { s1 with baselines := setKeyT s1.baselines key_prefix display_df }
    else s1
  let original_df := (lookupKeyT s2.baselines key_prefix).getD display_df
  let same_data_structure :=
    original_df.cols.length == display_df.cols.length &&
      original_df.cols == display_df.cols &&
      original_df.rows.length == display_df.rows.length
  let content_matches :=
    if same_data_structure && decide (0 < original_df.rows.length) then
      (List.range original_df.cols.length).all (fun j =>
        strOrEmpty (getCell original_df.rows 0 j) == strOrEmpty (getCell display_df.rows 0 j))
    else true
  if same_data_structure && content_matches then
    if edited_df ≠ original_df then
      let changes := diff_changes sheet_name m error_reference ts
        edited_df.cols original_df.cols.length original_df.rows edited_df.rows
      let s3 := { s2 with edit_history := changes.foldl recordEdit s2.edit_history }
      { s3 with baselines := setKeyT s3.baselines key_prefix edited_df }
    else s2
  else
    { s2 with baselines := setKeyT s2.baselines key_prefix display_df }

/-! ## Round-trip serializer, edit application (claims C2, C9; source lines 712-1135) -/

/-- Generic association-list assignment (Python dict `d[k] = v`). -/
def setAssoc {κ β : Type} [BEq κ] (m : List (κ × β)) (k : κ) (v : β) : List (κ × β) :=
  if m.any (fun p => p.1 == k) then m.map (fun p => if p.1 == k then (k, v) else p)
  else m ++ [(k, v)]

/-- Generic association-list lookup (Python `k in d` / `d[k]`). -/
def lookupAssoc {κ β : Type} [BEq κ] (m : List (κ × β)) (k : κ) : Option β :=
  (m.find? (fun p => p.1 == k)).map (fun p => p.2)

/-- A `Cell` element: its optional 1-based `ss:Index` attribute, and its
optional `Data` child with that child's optional text.  (`data = none`
models a cell with no `Data` child; other child kinds are not modelled,
so ElementTree element truthiness — an element is truthy exactly when it
has children — becomes `data.isSome`.)  Cell text is kept in plain form;
the reversible-placeholder substitution applied to it is modelled
separately at the value level. -/
structure XCell where
  ssIndex : Option Nat
  data : Option (Option String)
deriving DecidableEq, Repr

/-- A `Row` element. -/
structure XRow where
  cells : List XCell
deriving DecidableEq, Repr

/-- A `Worksheet` element with its `ss:Name`. -/
structure XSheet where
  name : String
  rows : List XRow
deriving DecidableEq, Repr

/-- Pad a list with empty strings so index `i` exists, then set it. -/
def listSetPad (l : List String) (i : Nat) (v : String) : List String :=
  (l ++ List.replicate (i + 1 - l.length) "").set i v

/-- Source lines 858-885: rebuild a dense row of stripped texts from the
sparse cells, honouring the explicit `ss:Index` position when present and
a running counter otherwise. -/
def buildRowDataAux : List XCell → Nat → List String → List String
  | [], _, row_data => row_data
  | cell :: rest, current_position, row_data =>
    let cell_position := match cell.ssIndex with
      | some n => n - 1
      | none => current_position
    let value := match cell.data with
      | some (some t) => if t = "" then "" else pyStripStr t
      | _ => ""
    buildRowDataAux rest (cell_position + 1) (listSetPad row_data cell_position value)

/-- Dense stripped texts of one row (positional form). -/
def build_row_data (r : XRow) : List String :=
  buildRowDataAux r.cells 0 []

/-- Source lines 851-893: one pass over the data rows building the lookup
maps `data_rows_by_ebeln` and `data_rows_by_index` (rows indexed into the
row list; only rows with a non-empty first column are added), and the
final value of the Python loop variable `cell` after this pass — the last
cell of the last data row holding cells, which later code reads when the
per-edit cell scan is skipped. -/
def scanDataRows (rows : List XRow) (data_start_row : Nat) :
    List (String × Nat) × List (Nat × Nat) × Option (Nat × Nat) :=
  (List.range' data_start_row (rows.length - data_start_row)).foldl
    (fun (acc : List (String × Nat) × List (Nat × Nat) × Option (Nat × Nat)) i =>
      let row := rows.getD i ⟨[]⟩
      let row_data := build_row_data row
      let leak2 := if row.cells.length = 0 then acc.2.2 else some (i, row.cells.length - 1)
      if 0 < row_data.length ∧ row_data.getD 0 "" ≠ "" then
        (setAssoc acc.1 (row_data.getD 0 "") i,
         setAssoc acc.2.1 (i - data_start_row) i, leak2)
      else (acc.1, acc.2.1, leak2))
    ([], [], none)

/-- Source lines 936-949: scan the cells of a row for the one whose
resolved position (explicit `ss:Index` or running counter) equals the
wanted column index, returning its position in the cell list. -/
def findTargetCellAux (col_index : Nat) : List XCell → Nat → Nat → Option Nat
  | [], _, _ => none
  | cell :: rest, current_position, listIdx =>
    let cell_position := match cell.ssIndex with
      | some n => n - 1
      | none => current_position
    if cell_position = col_index then some listIdx
    else findTargetCellAux col_index rest (cell_position + 1) (listIdx + 1)

/-- Store a new text into the `Data` child of cell `ci` of row `ri`
(source lines 955-965; the `Data` child is created when absent). -/
def writeCell (rows : List XRow) (ri ci : Nat) (v : String) : List XRow :=
  let row := rows.getD ri ⟨[]⟩
  let cell := row.cells.getD ci ⟨none, none⟩
  rows.set ri ⟨row.cells.set ci ⟨cell.ssIndex, some (some v)⟩⟩

/-- One reported change of `update_xml_with_changes` (lines 967-973). -/
structure ChangeRec where
  sheet : String
  column : String
  row : Nat
  old_value : String
  new_value : String
deriving DecidableEq, Repr

/-- Source lines 896-973, one edit.  The state carries the rows, the
current value of the leaked Python loop variable `cell` (as coordinates),
and the accumulated change list.

The `EBELN` lookup of lines 907-916 always falls through: the change
dictionaries recorded by `create_editable_dataframe` never contain an
`EBELN` key, and `st.session_state.modified_dataframes` is only ever
assigned the empty dict (source lines 17-18, 1298, 1345), so
`edit_ebeln` is always `None`.

When `col_index < len(cells)` fails, the Python code skips the cell scan
and the subsequent `if cell:` test reads the stale `cell` binding left by
an earlier loop; this is modelled by keeping the leaked coordinates in
the state. -/
def applyOneEdit (header_technical_names : List String) (data_start_row : Nat)
    (byEbeln : List (String × Nat)) (byIndex : List (Nat × Nat))
    (st : List XRow × Option (Nat × Nat) × List ChangeRec) (edit : EditEntry) :
    List XRow × Option (Nat × Nat) × List ChangeRec :=
  let rows := st.1
  let leak := st.2.1
  let changes := st.2.2
  if header_technical_names.contains edit.column then
    let col_index := header_technical_names.indexOf edit.column
    let edit_ebeln : Option String := none
    let resolved : Option Nat :=
      match edit_ebeln.bind (fun e => lookupAssoc byEbeln e) with
      | some i => some i
      | none =>
        match lookupAssoc byIndex edit.row with
        | some i => some i
        | none =>
          let xml_row_index := data_start_row + edit.row
          if xml_row_index < rows.length then some xml_row_index else none
    match resolved with
    | none => (rows, leak, changes)
    | some ri =>
      let cells := (rows.getD ri ⟨[]⟩).cells
      let cellref : Option (Nat × Nat) :=
        if col_index < cells.length then
          match findTargetCellAux col_index cells 0 0 with
          | some ci => some (ri, ci)
          | none => none
        else leak
      match cellref with
      | none => (rows, none, changes)
      | some (ri2, ci2) =>
        let cell := (rows.getD ri2 ⟨[]⟩).cells.getD ci2 ⟨none, none⟩
        if cell.data.isSome then
          let old_value := (Option.join cell.data).getD ""
          if edit.new_value ≠ old_value then
            (writeCell rows ri2 ci2 edit.new_value, cellref,
             changes ++ [{ sheet := edit.sheet, column := edit.column, row := edit.row,
                           old_value := old_value, new_value := edit.new_value }])
          else (rows, cellref, changes)
        else (rows, cellref, changes)
  else (rows, leak, changes)

/-- Source lines 762-973 for one worksheet, given the detected header and
start of data: build the row maps, then apply each edit in order. -/
def apply_sheet_edits (rows : List XRow) (header_technical_names : List String)
    (data_start_row : Nat) (edits : List EditEntry) : List XRow × List ChangeRec :=
  let maps := scanDataRows rows data_start_row
  let final := edits.foldl
    (applyOneEdit header_technical_names data_start_row maps.1 maps.2.1)
    (rows, maps.2.2, [])
  (final.1, final.2.2)

/-- Stripped texts of the cells of a row holding truthy text, in document
order (source lines 775-778, 807-810, ...). -/
def rowTexts (r : XRow) : List String :=
  r.cells.filterMap (fun c => match c.data with
    | some (some t) => if t = "" then none else some (pyStripStr t)
    | _ => none)

/-- Substring test (`pat in s` in Python). -/
def strContains (s pat : String) : Bool :=
  decide (pat.data <:+: s.data)

/-- ASCII uppercase of a string (Python `str.upper()`). -/
def strUpper (s : String) : String :=
  String.mk (s.data.map Char.toUpper)

/-- Source lines 768-784: the first row one of whose texts contains the
principal-key sentinel EBELN (after uppercasing). -/
def find_header_row (rows : List XRow) : Option Nat :=
  rows.findIdx? (fun r => (rowTexts r).any (fun t => strContains (strUpper t) "EBELN"))

/-- Source lines 813-816: every non-empty text is a semicolon-separated
record with at least five parts. -/
def is_tech_info_row (r : XRow) : Bool :=
  ((rowTexts r).filter (fun t => t ≠ "")).all (fun t =>
    strContains t ";" && 4 ≤ t.data.count ';')

/-- Source line 833: the joined texts mention a section keyword. -/
def is_section_header_row (r : XRow) : Bool :=
  ["Key", "General Data", "Delivery", "Incoterms"].any
    (fun w => strContains (String.intercalate " " (rowTexts r)) w)

/-- Source line 848: some non-empty text contains a blank line. -/
def is_description_row (r : XRow) : Bool :=
  ((rowTexts r).filter (fun t => t ≠ "")).any (fun t => strContains t "\n\n")

/-- Source lines 798-849: start of the data block, skipping the optional
technical-info, section-header and field-description rows. -/
def find_data_start (rows : List XRow) (header_row_index : Nat) : Nat :=
  let d0 := header_row_index + 1
  let d1 := if d0 < rows.length then
      (if is_tech_info_row (rows.getD d0 ⟨[]⟩) then d0 + 1 else d0) else d0
  let d2 := if d1 < rows.length then
      (if is_section_header_row (rows.getD d1 ⟨[]⟩) then d1 + 1 else d1) else d1
  let d3 := if d2 < rows.length then
      (if is_description_row (rows.getD d2 ⟨[]⟩) then d2 + 1 else d2) else d2
  d3

/-- Source lines 762-973 for one worksheet: detect the header row (the
sheet is skipped when none is found), derive the start of data, then
apply the edits. -/
def process_sheet (ws : XSheet) (edits : List EditEntry) : XSheet × List ChangeRec :=
  match find_header_row ws.rows with
  | none => (ws, [])
  | some header_row_index =>
    let header_technical_names := rowTexts (ws.rows.getD header_row_index ⟨[]⟩)
    let data_start_row := find_data_start ws.rows header_row_index
    let out := apply_sheet_edits ws.rows header_technical_names data_start_row edits
    (⟨ws.name, out.1⟩, out.2)

/-- Source lines 734-760 and 1135 (`update_xml_with_changes`, tree level):
group the ledger by sheet in first-appearance order, locate each target
worksheet by name, apply its edits, and return the updated tree together
with the accumulated change list.  An empty ledger skips the whole
application block (line 738) and returns the tree unchanged with zero
changes. -/
def update_xml_with_changes (sheets : List XSheet) (edit_history : List EditEntry) :
    List XSheet × List ChangeRec :=
  if edit_history = [] then (sheets, [])
  else
    (dictFromKeys (edit_history.map (fun e => e.sheet))).foldl
      (fun (acc : List XSheet × List ChangeRec) sheet_name =>
        match acc.1.findIdx? (fun ws => ws.name == sheet_name) with
        | none => acc
        | some wi =>
          let out := process_sheet (acc.1.getD wi ⟨"", []⟩)
            (edit_history.filter (fun e => e.sheet == sheet_name))
          (acc.1.set wi out.1, acc.2 ++ out.2))
      (sheets, [])

/-! ## Cell-value encoding pipeline (claims C1, C2; source lines 32-44,
199-204, 712-723, 980-1030, 1119-1133) -/

/-- Entity decoding performed by the XML parser on text content
(ElementTree and minidom), for the entity references arising in this
code base; an ampersand not starting a recognised reference is kept. -/
def decodeXml : List Char → List Char
  | [] => []
  | c :: t =>
    if c = '&' then
      if "amp;".data.isPrefixOf t then '&' :: decodeXml (t.drop 4)
      else if "lt;".data.isPrefixOf t then '<' :: decodeXml (t.drop 3)
      else if "gt;".data.isPrefixOf t then '>' :: decodeXml (t.drop 3)
      else if "quot;".data.isPrefixOf t then '"' :: decodeXml (t.drop 5)
      else if "apos;".data.isPrefixOf t then '\'' :: decodeXml (t.drop 5)
      else if "#10;".data.isPrefixOf t then '\n' :: decodeXml (t.drop 4)
      else if "#13;".data.isPrefixOf t then '\r' :: decodeXml (t.drop 4)
      else '&' :: decodeXml t
    else c :: decodeXml t
termination_by l => l.length
decreasing_by all_goals (simp only [List.length_drop, List.length_cons]; omega)

/-- The encoded line-break entity. -/
def E10 : List Char := "&#10;".data

/-- The encoded carriage-return entity. -/
def E13 : List Char := "&#13;".data

/-- The encoded quote entity. -/
def EQ : List Char := "&quot;".data

/-- Source line 40 and 717: the line-break placeholder. -/
def PH10 : List Char := "__XML_LINE_BREAK_PLACEHOLDER__".data

/-- Source line 718: the carriage-return placeholder. -/
def PH13 : List Char := "__XML_CARRIAGE_RETURN_PLACEHOLDER__".data

/-- Source line 719: the quote placeholder. -/
def PHQ : List Char := "__XML_QUOTES_PLACEHOLDER__".data

/-- Source line 1017: the temporary line-break placeholder. -/
def T10 : List Char := "__TEMP_LINE_BREAK__".data

/-- Source line 1018: the temporary carriage-return placeholder. -/
def T13 : List Char := "__TEMP_CARRIAGE_RETURN__".data

/-- Source line 1019: the temporary quote placeholder. -/
def TQ : List Char := "__TEMP_QUOTES_RETURN__".data

/-- ElementTree `tostring` escaping of text content (ampersand first,
then the angle brackets; quotes and control characters are left alone). -/
def escape_cdata (l : List Char) : List Char :=
  replaceSub ['>'] "&gt;".data (replaceSub ['<'] "&lt;".data (replaceSub ['&'] "&amp;".data l))

/-- minidom text-content escaping (ampersand, less-than, quote,
greater-than, in that order). -/
def minidom_write_data (l : List Char) : List Char :=
  replaceSub ['>'] "&gt;".data (replaceSub ['"'] EQ
    (replaceSub ['<'] "&lt;".data (replaceSub ['&'] "&amp;".data l)))

/-- Ingestion of one cell value (source lines 38-44 and 199-204): protect
the line-break entity with the placeholder, parse (entity decoding),
strip, and restore the placeholder to its entity form. -/
def ingest_cell_value (v : List Char) : List Char :=
  replaceSub PH10 E10 (pyStrip (decodeXml (replaceSub E10 PH10 v)))

/-- Serialization of one untouched cell value through
`update_xml_with_changes` (source lines 715-723, 980-1030, 1119-1133):
protect the three entities with placeholders, parse (decode), write back
with ElementTree escaping, restore the placeholders to entity form,
re-encode raw control characters and quotes inside Data content, protect
the entities again with temporary placeholders around the minidom
round (decode then minidom escaping), and restore them. -/
def serialize_cell_value_noedit (v : List Char) : List Char :=
  let s1 := replaceSub EQ PHQ (replaceSub E13 PH13 (replaceSub E10 PH10 v))
  let s2 := decodeXml s1
  let s3 := escape_cdata s2
  let s4 := replaceSub PHQ EQ (replaceSub PH13 E13 (replaceSub PH10 E10 s3))
  let s5 := replaceSub ['"'] EQ (replaceSub ['\r'] E13 (replaceSub ['\n'] E10 s4))
  let s6 := replaceSub EQ TQ (replaceSub E13 T13 (replaceSub E10 T10 s5))
  let s7 := minidom_write_data (decodeXml s6)
  replaceSub TQ EQ (replaceSub T13 E13 (replaceSub T10 E10 s7))

/-- A symbolic cell-source text: a sequence of plain characters and
entity references, the well-formed texts the pipeline receives. -/
inductive Tok where
  | raw (c : Char)
  | amp
  | lt
  | gt
  | quot
  | apos
  | lf
  | cr
deriving DecidableEq, Repr

/-- The source text a token stands for. -/
def Tok.render : Tok → List Char
  | .raw c => [c]
  | .amp => "&amp;".data
  | .lt => "&lt;".data
  | .gt => "&gt;".data
  | .quot => EQ
  | .apos => "&apos;".data
  | .lf => E10
  | .cr => E13

/-- The source text of a token stream. -/
def renderToks (ts : List Tok) : List Char :=
  (ts.map Tok.render).flatten

/-- Admissible plain characters: no raw ampersand or markup open (the
text would not be well-formed XML), no raw control characters (the claim
concerns the encoded form), and no underscore (the placeholder strings
of the source are chosen to be absent from the data; see the comment at
source line 39). -/
def OkTok : Tok → Prop
  | .raw c => c ≠ '&' ∧ c ≠ '<' ∧ c ≠ '\n' ∧ c ≠ '\r' ∧ c ≠ '_'
  | _ => True

instance (t : Tok) : Decidable (OkTok t) := by
  cases t <;> simp only [OkTok] <;> infer_instance

/-- Admissible token streams. -/
def OkToks (ts : List Tok) : Prop := ∀ t ∈ ts, OkTok t

instance (ts : List Tok) : Decidable (OkToks ts) := by
  unfold OkToks; infer_instance

/-- Per-token effect of one textual replacement. -/
def mapPiece (pat rep : List Char) (f : Tok → List Char) : Tok → List Char :=
  fun t => if f t = pat then rep else f t

/-- Per-token effect of entity decoding. -/
def decPiece (f : Tok → List Char) : Tok → List Char :=
  fun t => decodeXml (f t)

/-- A piece whose decoding is self-contained: decoding distributes over
appending anything after it. -/
def DecSelfCont (p : List Char) : Prop :=
  ∀ rest, decodeXml (p ++ rest) = decodeXml p ++ decodeXml rest

/-- Per-token value after the protect-and-parse prefix of the serializer
(placeholders in place of the three entities, everything else decoded). -/
def serMid : Tok → List Char
  | .raw c => [c]
  | .amp => ['&']
  | .lt => ['<']
  | .gt => ['>']
  | .quot => PHQ
  | .apos => ['\'']
  | .lf => PH10
  | .cr => PH13

/-- Per-token value after the second parse of the serializer (inside the
minidom round, with the temporary placeholders in place). -/
def serMid2 : Tok → List Char
  | .raw c => if c = '"' then TQ else if c = '>' then ['>'] else [c]
  | .amp => ['&']
  | .lt => ['<']
  | .gt => ['>']
  | .quot => TQ
  | .apos => ['\'']
  | .lf => T10
  | .cr => T13

/-- Per-token value in the final serializer output. -/
def serTok : Tok → List Char
  | .raw c => if c = '"' then EQ else if c = '>' then "&gt;".data else [c]
  | .amp => "&amp;".data
  | .lt => "&lt;".data
  | .gt => "&gt;".data
  | .quot => EQ
  | .apos => ['\'']
  | .lf => E10
  | .cr => E13

/-- Per-token value of the ingested (parsed) cell text before the strip
and the placeholder restoration. -/
def igTok : Tok → List Char
  | .raw c => [c]
  | .amp => ['&']
  | .lt => ['<']
  | .gt => ['>']
  | .quot => ['"']
  | .apos => ['\'']
  | .lf => PH10
  | .cr => ['\r']

/-- Decidable test that two lists differ somewhere inside their overlap. -/
def disagreesAt (pat q : List Char) : Bool :=
  (List.range (min pat.length q.length)).any (fun n => pat[n]? != q[n]?)

/-- Decidable test that `pat` disagrees with every suffix of `p` inside
the overlap: no occurrence of `pat` can start inside `p`, even one
running past its end. -/
def allDisagree (pat p : List Char) : Bool :=
  (List.range p.length).all (fun i => disagreesAt pat (p.drop i))

/-- Guarded-disagreement condition for one piece of a token stream: at
every start position inside the piece, either the pattern disagrees with
the piece within their overlap, or the agreeing overlap is proper and the
continuation the pattern would need is one of the forbidden prefixes `D`
(strings no stream of pieces can start with). -/
def GuardOk (pat : List Char) (D : List (List Char)) (p : List Char) : Prop :=
  ∀ i, i < p.length → disagreesAt pat (p.drop i) = true ∨
    (p.length - i < pat.length ∧ pat.drop (p.length - i) ∈ D)

instance (pat : List Char) (D : List (List Char)) (p : List Char) :
    Decidable (GuardOk pat D p) := by
  unfold GuardOk; infer_instance

/-- Forbidden stream prefixes while the line-break placeholder is being
restored (the trailing underscores of the other placeholders agree with
its head, so these continuations must be impossible). -/
def D8 : List (List Char) :=
  [PH10.drop 1, PH10.drop 2, PH10.drop 3, PH10.drop 4, PH10.drop 5]

/-- Forbidden stream prefixes while the carriage-return placeholder is
being restored. -/
def D9 : List (List Char) :=
  [PH13.drop 1, PH13.drop 2, PH13.drop 3, PH13.drop 4, PH13.drop 5]

/-- Forbidden stream prefixes while the temporary line-break placeholder
is being restored. -/
def D22 : List (List Char) :=
  [T10.drop 1, T10.drop 2, T10.drop 3, T10.drop 4, T10.drop 5, T10.drop 6]

/-- Forbidden stream prefixes while the temporary carriage-return
placeholder is being restored. -/
def D23 : List (List Char) :=
  [T13.drop 1, T13.drop 2, T13.drop 3, T13.drop 4, T13.drop 5, T13.drop 6]

/-- Per-token tables of the serializer stages: protection of the three
entities (source lines 715-723). -/
def fser1 : Tok → List Char := mapPiece E10 PH10 Tok.render

def fser2 : Tok → List Char := mapPiece E13 PH13 fser1

def fser3 : Tok → List Char := mapPiece EQ PHQ fser2

/-- Per-token tables of the serializer stages: ElementTree escaping of
the decoded text (source line 996 via `ET.tostring`). -/
def fser5 : Tok → List Char := mapPiece ['&'] "&amp;".data serMid

def fser6 : Tok → List Char := mapPiece ['<'] "&lt;".data fser5

def fser7 : Tok → List Char := mapPiece ['>'] "&gt;".data fser6

/-- Per-token tables of the serializer stages: restoration of the
placeholders (source lines 999-1001). -/
def fser8 : Tok → List Char := mapPiece PH10 E10 fser7

def fser9 : Tok → List Char := mapPiece PH13 E13 fser8

def fser10 : Tok → List Char := mapPiece PHQ EQ fser9

/-- Per-token tables of the serializer stages: re-encoding of literal
control characters and quotes in Data content (source lines 1009-1011). -/
def fser11 : Tok → List Char := mapPiece ['\n'] E10 fser10

def fser12 : Tok → List Char := mapPiece ['\r'] E13 fser11

def fser13 : Tok → List Char := mapPiece ['"'] EQ fser12

/-- Per-token tables of the serializer stages: temporary protection of
the entities around the minidom round (source lines 1017-1019). -/
def fser14 : Tok → List Char := mapPiece E10 T10 fser13

def fser15 : Tok → List Char := mapPiece E13 T13 fser14

def fser16 : Tok → List Char := mapPiece EQ TQ fser15

/-- Per-token tables of the serializer stages: minidom re-escaping of the
re-parsed text (source lines 1124-1127 via `toprettyxml`). -/
def fser18 : Tok → List Char := mapPiece ['&'] "&amp;".data serMid2

def fser19 : Tok → List Char := mapPiece ['<'] "&lt;".data fser18

def fser20 : Tok → List Char := mapPiece ['"'] EQ fser19

def fser21 : Tok → List Char := mapPiece ['>'] "&gt;".data fser20

/-- Per-token tables of the serializer stages: restoration of the
temporary placeholders (source lines 1129-1131). -/
def fser22 : Tok → List Char := mapPiece T10 E10 fser21

def fser23 : Tok → List Char := mapPiece T13 E13 fser22

def fser24 : Tok → List Char := mapPiece TQ EQ fser23

/-- Per-token table after the line-break protection of ingestion applied
to serialized output (re-reading the written file). -/
def fiser : Tok → List Char := mapPiece E10 PH10 serTok

/-! ## Concrete fixtures -/

/-- A mapping table in which two metadata rows declare the same technical
name, as `parse_header_mappings` allows: the second declaration overwrites
the technical-to-descriptive direction. -/
def c3mapEx : List (String × String) :=
  add_header_mapping (add_header_mapping [] "DESC1" "TECH") "DESC2" "TECH"

/-- A mapping table with a single reciprocal pair. -/
def c3mapRec : List (String × String) :=
  add_header_mapping [] "Material Number" "MATNR"

/-- Item rows covering the as-given, 18-padded and zero-stripped variants. -/
def c8dfEx : List ItemRow :=
  [⟨0, "12345678"⟩, ⟨1, "000000000012345678"⟩, ⟨2, "99999"⟩]

/-- A fresh session (no tracked error, no baselines, empty ledger). -/
def c5s0 : SessionState := ⟨none, [], []⟩

/-- Working copy shown while error 0 is selected. -/
def c5dA : DTable := ⟨["EBELN"], [[some "4500000001"]]⟩

/-- Working copy shown while error 1 is selected (same shape as `c5dA`). -/
def c5dB : DTable := ⟨["EBELN"], [[some "4500000002"]]⟩

/-- A working copy whose shape differs from the stored baseline. -/
def c5dMis : DTable := ⟨["EBELN", "MATNR"], []⟩

/-- A session already tracking an error whose stored baseline has a
different shape than `c5dMis`. -/
def c5sMis : SessionState := ⟨some "error_7", [("error_7", ⟨["EBELN"], []⟩)], []⟩

/-- A worksheet body (header row then two data rows) in which the first
data row carries only its key cell, while the second data row is full:
an edit addressing the short-text column of the first data row has no
target cell there. -/
def c9rows : List XRow :=
  [⟨[⟨none, some (some "EBELN")⟩, ⟨none, some (some "TXZ01")⟩]⟩,
   ⟨[⟨none, some (some "4500000001")⟩]⟩,
   ⟨[⟨none, some (some "4500000002")⟩, ⟨none, some (some "OLDTEXT")⟩]⟩]

/-- The edit whose target cell is unresolvable: dataframe row 0, column
TXZ01 (column index 1), but the addressed row has a single cell. -/
def c9edit : EditEntry :=
  { sheet := "Item Data", column := "TXZ01", row := 0,
    old_value := "", new_value := "NEWTEXT", timestamp := 0, error_reference := none }

/-! # Theorems -/

/-! ## Ledger helper lemmas -/

theorem recordEdit_preserves (h : List EditEntry) (e : EditEntry)
    (hh : LedgerNoDup h) : LedgerNoDup (recordEdit h e) := by
  by_cases hc : (h.any (fun existing => sameEdit existing e)) = true
  · rw [recordEdit, if_pos hc]
    exact hh
  · rw [recordEdit, if_neg hc]
    unfold LedgerNoDup
    rw [List.pairwise_append]
    refine ⟨hh, List.pairwise_singleton _ _, ?_⟩
    intro a ha b hb
    simp only [List.mem_singleton] at hb
    subst hb
    have := List.any_eq_false.mp (Bool.not_eq_true _ ▸ hc) a ha
    simpa using this

theorem applyLedgerOp_preserves (h : List EditEntry) (op : LedgerOp)
    (hh : LedgerNoDup h) : LedgerNoDup (applyLedgerOp h op) := by
  cases op with
  | record e => exact recordEdit_preserves h e hh
  | delete i => exact List.Pairwise.sublist (List.eraseIdx_sublist h i) hh
  | clear => exact List.Pairwise.nil

theorem applyLedgerOps_preserves (ops : List LedgerOp) :
    ∀ h : List EditEntry, LedgerNoDup h → LedgerNoDup (applyLedgerOps ops h) := by
  induction ops with
  | nil => intro h hh; exact hh
  | cons op ops ih =>
    intro h hh
    exact ih _ (applyLedgerOp_preserves h op hh)

/-- C6: after any sequence of record, delete and clear operations starting
from the empty ledger, no two entries share (sheet, column, row, new
value); and recording the same edit twice yields exactly one entry. -/
theorem c6_ledger_dedup (ops : List LedgerOp) (e : EditEntry) :
    LedgerNoDup (applyLedgerOps ops []) ∧
      (recordEdit (recordEdit [] e) e).length = 1 := by
  constructor
  · exact applyLedgerOps_preserves ops [] List.Pairwise.nil
  · simp [recordEdit, sameEdit]

/-! ## Padding-variant helper lemmas -/

theorem dictFromKeys_mem (l : List String) (a : String) :
    a ∈ dictFromKeys l ↔ a ∈ l := by
  induction l using dictFromKeys.induct with
  | case1 => simp [dictFromKeys]
  | case2 b l ih =>
    rw [dictFromKeys]
    by_cases hab : a = b
    · subst hab; simp
    · simp only [List.mem_cons, hab, false_or, ih, List.mem_filter]
      constructor
      · intro hmem; exact hmem.1
      · intro hmem; exact ⟨hmem, by simpa using hab⟩

theorem dictFromKeys_nodup (l : List String) : (dictFromKeys l).Nodup := by
  induction l using dictFromKeys.induct with
  | case1 => simp [dictFromKeys]
  | case2 b l ih =>
    rw [dictFromKeys]
    refine List.nodup_cons.mpr ⟨?_, ih⟩
    intro hmem
    have := (dictFromKeys_mem _ _).mp hmem
    simp [List.mem_filter] at this

theorem count_flatMap_filter (df : List ItemRow) (r : ItemRow) :
    ∀ vs : List String, vs.Nodup →
      (vs.flatMap (fun v => df.filter (fun x => x.matnr == v))).count r =
        if r.matnr ∈ vs then df.count r else 0 := by
  intro vs
  induction vs with
  | nil => intro _; simp
  | cons v vs ih =>
    intro hnd
    have hnd2 := List.nodup_cons.mp hnd
    rw [List.flatMap_cons, List.count_append, ih hnd2.2]
    by_cases hv : r.matnr = v
    · have hcount : (df.filter (fun x => x.matnr == v)).count r = df.count r :=
        List.count_filter (by simp [hv])
      have hnot : r.matnr ∉ vs := hv ▸ hnd2.1
      have hmemcons : r.matnr ∈ v :: vs := by simp [hv]
      rw [hcount, if_neg hnot, if_pos hmemcons]
      simp
    · have hcount : (df.filter (fun x => x.matnr == v)).count r = 0 := by
        rw [List.count_eq_zero]
        intro hmem
        have := (List.mem_filter.mp hmem).2
        simp at this
        exact hv this
      have hiff : (r.matnr ∈ v :: vs) ↔ r.matnr ∈ vs := by simp [hv]
      by_cases hmem : r.matnr ∈ vs
      · rw [hcount, if_pos hmem, if_pos (hiff.mpr hmem)]
        simp
      · rw [hcount, if_neg hmem, if_neg (fun hc => hmem (hiff.mp hc))]

/-- C8: the material lookup returns exactly the Item rows whose MATNR
equals one of the zero-padding variants of the extracted token
(as extracted, padded to 10, padded to 18, leading zeros stripped), and
the concatenation over the de-duplicated variant list contains no
duplicate rows. -/
theorem c8_padding_variants (df : List ItemRow) (m : String) (r : ItemRow)
    (hdf : df.Nodup) :
    (r ∈ searchMaterialRecords df m ↔ r ∈ df ∧ r.matnr ∈ material_variants m) ∧
      (searchMaterialRecords df m).Nodup := by
  have hvars : (material_variants m).Nodup := dictFromKeys_nodup _
  constructor
  · unfold searchMaterialRecords
    rw [List.mem_flatMap]
    constructor
    · rintro ⟨v, hv, hmem⟩
      have h2 := List.mem_filter.mp hmem
      have : r.matnr = v := by simpa using h2.2
      exact ⟨h2.1, this ▸ hv⟩
    · rintro ⟨hdf2, hv⟩
      exact ⟨r.matnr, hv, List.mem_filter.mpr ⟨hdf2, by simp⟩⟩
  · rw [List.nodup_iff_count_le_one]
    intro a
    unfold searchMaterialRecords
    rw [count_flatMap_filter df a _ hvars]
    by_cases hmem : a.matnr ∈ material_variants m
    · simpa [hmem] using List.nodup_iff_count_le_one.mp hdf a
    · simp [hmem]

/-- C8 witness: a concrete dataframe and token, evaluated. -/
theorem c8_padding_variants_witness :
    ((⟨1, "000000000012345678"⟩ : ItemRow) ∈ searchMaterialRecords c8dfEx "12345678" ↔
      (⟨1, "000000000012345678"⟩ : ItemRow) ∈ c8dfEx ∧
        ("000000000012345678" : String) ∈ material_variants "12345678") ∧
      (searchMaterialRecords c8dfEx "12345678").Nodup :=
  c8_padding_variants c8dfEx "12345678" ⟨1, "000000000012345678"⟩ (by decide)

/-! ## Header resolver theorems -/

/-- C3 counterexample: in a table where DESC1 maps to TECH but TECH maps
back to DESC2, DESC1 participates in no reciprocal one-hop pair, so the
claim requires the descriptive-direction resolver to return DESC1
unchanged; the code returns TECH instead (single unconditional hop). -/
theorem c3_resolver_counterexample :
    lookupKey c3mapEx "DESC1" = some "TECH" ∧
      lookupKey c3mapEx "TECH" = some "DESC2" ∧
      ("DESC2" : String) ≠ "DESC1" ∧
      to_descriptive_header c3mapEx "DESC1" = "TECH" ∧
      to_descriptive_header c3mapEx "DESC1" ≠ "DESC1" := by
  decide

/-- C3 amended: `get_technical_name` implements the reciprocity contract
(counterpart exactly when a reciprocal one-hop mapping exists, identity
otherwise), while `to_descriptive_header` performs a single unconditional
hop on any mapped name and is the identity only on unmapped names; the
round trip toTechnical (toDescriptive x) = x holds for every name in a
reciprocal pair, and both functions are the identity on unmapped names. -/
theorem c3_resolver_amended (m : List (String × String)) (x : String) :
    (∀ y, lookupKey m x = some y → lookupKey m y = some x →
      get_technical_name m x = y) ∧
    (∀ y z, lookupKey m x = some y → lookupKey m y = some z → z ≠ x →
      get_technical_name m x = x) ∧
    (∀ y, lookupKey m x = some y → lookupKey m y = none →
      get_technical_name m x = x) ∧
    (lookupKey m x = none →
      get_technical_name m x = x ∧ to_descriptive_header m x = x) ∧
    (∀ y, lookupKey m x = some y → to_descriptive_header m x = y) ∧
    (∀ y, lookupKey m x = some y → lookupKey m y = some x →
      get_technical_name m (to_descriptive_header m x) = x) := by
  refine ⟨?_, ?_, ?_, ?_, ?_, ?_⟩
  · intro y h1 h2
    simp [get_technical_name, h1, h2]
  · intro y z h1 h2 hzx
    simp only [get_technical_name, h1, h2, ite_eq_right_iff]
    intro hzx2
    exact absurd hzx2 hzx
  · intro y h1 h2
    simp [get_technical_name, h1, h2]
  · intro h1
    constructor
    · simp [get_technical_name, h1]
    · simp [to_descriptive_header, h1]
  · intro y h1
    simp [to_descriptive_header, h1]
  · intro y h1 h2
    simp [to_descriptive_header, get_technical_name, h1, h2]

/-- C3 witness: the amended statement evaluated on a reciprocal pair and
on an unmapped name. -/
theorem c3_resolver_witness :
    get_technical_name c3mapRec "Material Number" = "MATNR" ∧
      to_descriptive_header c3mapRec "MATNR" = "Material Number" ∧
      get_technical_name c3mapRec (to_descriptive_header c3mapRec "MATNR") = "MATNR" ∧
      get_technical_name c3mapRec "FOO" = "FOO" ∧
      to_descriptive_header c3mapRec "FOO" = "FOO" :=
  ⟨(c3_resolver_amended c3mapRec "Material Number").1 "MATNR" (by decide) (by decide),
   (c3_resolver_amended c3mapRec "MATNR").2.2.2.2.1 "Material Number" (by decide),
   (c3_resolver_amended c3mapRec "MATNR").2.2.2.2.2 "Material Number" (by decide) (by decide),
   ((c3_resolver_amended c3mapRec "FOO").2.2.2.1 (by decide)).1,
   ((c3_resolver_amended c3mapRec "FOO").2.2.2.1 (by decide)).2⟩

/-! ## Non-string sentinel theorem -/

/-- C10: a non-string input yields the sentinel "No reference", distinct
from "No specific reference", and the caller guard of lines 645-649
(which only excludes empty strings and "No specific reference") treats it
as a real reference and attaches it. -/
theorem c10_nonstring_sentinel :
    extract_error_reference PyValue.nonString = "No reference" ∧
      ("No reference" : String) ≠ "No specific reference" ∧
      attachErrorReference "No reference" = true ∧
      attachErrorReference "No specific reference" = false := by
  refine ⟨rfl, by decide, by decide, by decide⟩

/-! ## Diff characterization (claim C7) -/

theorem foldl_ite_append {α β : Type} (p : α → Bool) (e : α → β) :
    ∀ (l : List α) (init : List β),
      l.foldl (fun acc x => if p x then acc ++ [e x] else acc) init
        = init ++ l.filterMap (fun x => if p x then some (e x) else none) := by
  intro l
  induction l with
  | nil => intro init; simp
  | cons a l ih =>
    intro init
    by_cases hp : p a = true <;>
      simp [hp, ih, List.append_assoc]

theorem foldl_append_flatMap {α β : Type} (g : α → List β) :
    ∀ (l : List α) (init : List β),
      l.foldl (fun acc x => acc ++ g x) init = init ++ l.flatMap g := by
  intro l
  induction l with
  | nil => intro init; simp
  | cons a l ih =>
    intro init
    simp [ih, List.append_assoc]

/-- C7: on a baseline and working copy sharing the column list (identical
shape up to appended working rows), the diff of source lines 626-675
produces, row by row and column by column, exactly one entry per changed
present cell (old = baseline value, new = working value) for the rows
present in both, then exactly one entry per present cell (old = empty
text) for the appended rows, and nothing else. -/
theorem c7_diff_characterization (sheet_name : String) (m : List (String × String))
    (error_reference : Option String) (ts : Nat) (cols : List String)
    (original edited : List (List PCell)) :
    diff_changes sheet_name m error_reference ts cols cols.length original edited
      = c7_spec sheet_name m error_reference ts cols original edited := by
  unfold diff_changes c7_spec
  simp only [foldl_ite_append, foldl_append_flatMap, List.nil_append]
  by_cases hlen : original.length < edited.length
  · rw [if_pos hlen]
    congr 1
    refine List.flatMap_congr (fun i _ => ?_)
    refine List.filterMap_congr (fun j hj => ?_)
    rw [if_pos (List.mem_range.mp hj)]
  · rw [if_neg hlen]
    have hz : edited.length - original.length = 0 :=
      Nat.sub_eq_zero_of_le (Nat.le_of_not_lt hlen)
    rw [hz]
    simp only [List.range'_zero, List.flatMap_nil, List.append_nil]
    refine List.flatMap_congr (fun i _ => ?_)
    refine List.filterMap_congr (fun j hj => ?_)
    rw [if_pos (List.mem_range.mp hj)]

/-! ## Baseline guard (claim C5) -/

theorem lookupKeyT_setKeyT_self (bs : List (String × DTable)) (k : String) (v : DTable) :
    lookupKeyT (setKeyT bs k v) k = some v := by
  induction bs with
  | nil => simp [setKeyT, lookupKeyT]
  | cons a bs ih =>
    by_cases ha : (a.1 == k) = true
    · have hany : ((a :: bs).any (fun p => p.1 == k)) = true := by
        simp [List.any_cons, ha]
      rw [setKeyT, if_pos hany, List.map_cons, if_pos ha, lookupKeyT,
        List.find?_cons_of_pos _ (by simp)]
      rfl
    · by_cases hany : (bs.any (fun p => p.1 == k)) = true
      · have hanyc : ((a :: bs).any (fun p => p.1 == k)) = true := by
          simp [List.any_cons, hany]
        rw [setKeyT, if_pos hanyc, List.map_cons, if_neg ha, lookupKeyT,
          @List.find?_cons_of_neg _ (fun p => p.1 == k) a _ ha]
        have h2 := ih
        rw [setKeyT, if_pos hany, lookupKeyT] at h2
        exact h2
      · have hanyc : ¬ (((a :: bs).any (fun p => p.1 == k)) = true) := by
          simp only [List.any_cons, Bool.or_eq_true]
          rintro (h | h)
          · exact ha h
          · exact hany h
        rw [setKeyT, if_neg hanyc, List.cons_append, lookupKeyT,
          @List.find?_cons_of_neg _ (fun p => p.1 == k) a _ ha]
        have h2 := ih
        rw [setKeyT, if_neg hany, lookupKeyT] at h2
        exact h2

theorem lookupKeyT_eraseKeyT_self (bs : List (String × DTable)) (k : String) :
    lookupKeyT (eraseKeyT bs k) k = none := by
  induction bs with
  | nil => simp [eraseKeyT, lookupKeyT]
  | cons a bs ih =>
    by_cases ha : (a.1 == k) = true
    · have hbne : (a.1 != k) = false := by simp [bne, ha]
      rw [eraseKeyT, List.filter_cons, hbne]
      rw [if_neg (by simp)]
      rw [eraseKeyT] at ih
      exact ih
    · have hbne : (a.1 != k) = true := by
        simp only [bne]
        rw [Bool.not_eq_true] at ha
        simp [ha]
      rw [eraseKeyT, List.filter_cons, hbne]
      rw [if_pos rfl]
      rw [lookupKeyT, @List.find?_cons_of_neg _ (fun p => p.1 == k) a _ ha]
      rw [eraseKeyT, lookupKeyT] at ih
      exact ih

/-- Evaluation of one no-edit step that switches to error `key_prefix`:
the tracked error changes, the baseline for `key_prefix` is freshly
captured from the working copy, and the ledger is untouched. -/
theorem step_noedit_switch (m : List (String × String)) (sheet_name p : String)
    (d : DTable) (rf : Option String) (ts : Nat) (s : SessionState)
    (hcase : s.tracking ≠ some p)
    (hnone : s.tracking = none → lookupKeyT s.baselines p = none) :
    create_editable_dataframe_step m sheet_name p d d rf ts s =
      { tracking := some p,
        baselines := setKeyT (match s.tracking with
          | none => s.baselines
          | some _ => eraseKeyT s.baselines p) p d,
        edit_history := s.edit_history } := by
  unfold create_editable_dataframe_step
  cases htr : s.tracking with
  | none =>
    have hb := hnone htr
    simp [htr, hb, lookupKeyT_setKeyT_self]
  | some k =>
    have hk : k ≠ p := fun he => hcase (by rw [htr, he])
    simp [htr, hk, lookupKeyT_eraseKeyT_self, lookupKeyT_setKeyT_self]

/-- Evaluation of one step whose working copy has a different shape than
the stored baseline for the same tracked error: nothing is recorded and
the baseline is reset to the working copy. -/
theorem step_shape_mismatch (m : List (String × String)) (sheet_name p : String)
    (disp ed bl : DTable) (rf : Option String) (ts : Nat) (s : SessionState)
    (htr : s.tracking = some p)
    (hbl : lookupKeyT s.baselines p = some bl)
    (hmis : (bl.cols.length == disp.cols.length && bl.cols == disp.cols &&
        bl.rows.length == disp.rows.length) = false) :
    (create_editable_dataframe_step m sheet_name p disp ed rf ts s).edit_history
        = s.edit_history ∧
      lookupKeyT (create_editable_dataframe_step m sheet_name p disp ed rf ts s).baselines p
        = some disp := by
  unfold create_editable_dataframe_step
  simp [htr, hbl, hmis, lookupKeyT_setKeyT_self]

/-- C5: selecting error A, then a same-shaped error B, then error A again,
with the operator editing nothing (the edited table equals the displayed
working copy at each step), leaves the edit ledger exactly as it was; and
whenever the stored baseline for the tracked error differs from the
working copy in column count, column names, or row count, the step emits
nothing and resets the baseline to the new working copy. -/
theorem c5_baseline_reset (m : List (String × String)) (sheet_name A B : String)
    (dA dB dA2 : DTable) (rf : Option String) (t1 t2 t3 : Nat) (s0 : SessionState)
    (hAB : A ≠ B)
    (htr0 : s0.tracking ≠ some A)
    (hinit : s0.tracking = none → lookupKeyT s0.baselines A = none)
    (_hshape : dB.cols = dA.cols ∧ dB.rows.length = dA.rows.length)
    (p : String) (disp ed bl : DTable) (s : SessionState)
    (htr : s.tracking = some p)
    (hbl : lookupKeyT s.baselines p = some bl)
    (hmis : (bl.cols.length == disp.cols.length && bl.cols == disp.cols &&
        bl.rows.length == disp.rows.length) = false) :
    ((create_editable_dataframe_step m sheet_name A dA2 dA2 rf t3
        (create_editable_dataframe_step m sheet_name B dB dB rf t2
          (create_editable_dataframe_step m sheet_name A dA dA rf t1 s0))).edit_history
        = s0.edit_history) ∧
      ((create_editable_dataframe_step m sheet_name p disp ed rf t1 s).edit_history
          = s.edit_history ∧
        lookupKeyT (create_editable_dataframe_step m sheet_name p disp ed rf t1 s).baselines p
          = some disp) := by
  constructor
  · rw [step_noedit_switch m sheet_name A dA rf t1 s0 htr0 hinit]
    rw [step_noedit_switch m sheet_name B dB rf t2 _
      (by simp only [ne_eq, Option.some.injEq]; exact hAB) (by simp)]
    rw [step_noedit_switch m sheet_name A dA2 rf t3 _
      (by simp only [ne_eq, Option.some.injEq]; exact hAB.symm) (by simp)]
  · exact step_shape_mismatch m sheet_name p disp ed bl rf t1 s htr hbl hmis

/-- C5 witness: the A-B-A no-edit scenario and the shape-mismatch reset,
evaluated on concrete tables. -/
theorem c5_baseline_reset_witness :
    ((create_editable_dataframe_step [] "Item Data" "error_0" c5dA c5dA none 3
        (create_editable_dataframe_step [] "Item Data" "error_1" c5dB c5dB none 2
          (create_editable_dataframe_step [] "Item Data" "error_0" c5dA c5dA none 1 c5s0))).edit_history
        = c5s0.edit_history) ∧
      ((create_editable_dataframe_step [] "Item Data" "error_7" c5dMis c5dMis none 1 c5sMis).edit_history
          = c5sMis.edit_history ∧
        lookupKeyT (create_editable_dataframe_step [] "Item Data" "error_7" c5dMis c5dMis
            none 1 c5sMis).baselines "error_7"
          = some c5dMis) :=
  c5_baseline_reset [] "Item Data" "error_0" "error_1" c5dA c5dB c5dA none 1 2 3 c5s0
    (by decide) (by decide) (fun _ => rfl) ⟨rfl, rfl⟩
    "error_7" c5dMis c5dMis ⟨["EBELN"], []⟩ c5sMis rfl (by decide) (by decide)

/-! ## Serializer edit-skipping (claim C9) -/

/-- C9 evaluated at the failing input: the edit addresses dataframe row 0
and column index 1, but that row has a single cell, so the target cell is
unresolvable.  Instead of being skipped, the edit is applied through the
leaked loop variable: the last-scanned cell — the TXZ01 cell of the
OTHER data row — is overwritten with the new value, and the change is
reported in the change list. -/
theorem c9_stale_cell_write :
    apply_sheet_edits c9rows ["EBELN", "TXZ01"] 1 [c9edit] =
      ([⟨[⟨none, some (some "EBELN")⟩, ⟨none, some (some "TXZ01")⟩]⟩,
        ⟨[⟨none, some (some "4500000001")⟩]⟩,
        ⟨[⟨none, some (some "4500000002")⟩, ⟨none, some (some "NEWTEXT")⟩]⟩],
       [{ sheet := "Item Data", column := "TXZ01", row := 0,
          old_value := "OLDTEXT", new_value := "NEWTEXT" }]) := by
  decide

/-! ## Reference extractor (claim C4) -/

theorem takeWhile_of_all {p : Char → Bool} : ∀ {l : List Char},
    (∀ x ∈ l, p x = true) → l.takeWhile p = l := by
  intro l
  induction l with
  | nil => intro _; rfl
  | cons c t ih =>
    intro h
    rw [List.takeWhile_cons, if_pos (h c (by simp))]
    rw [ih (fun x hx => h x (by simp [hx]))]

theorem takeWhile_subclass (p q : Char → Bool) (h : ∀ c, q c = true → p c = true) :
    ∀ l : List Char, l.takeWhile p = l.takeWhile q ++ (l.dropWhile q).takeWhile p := by
  intro l
  induction l with
  | nil => simp
  | cons c t ih =>
    by_cases hq : q c = true
    · rw [List.takeWhile_cons, if_pos (h c hq), List.takeWhile_cons, if_pos hq,
        List.dropWhile_cons, if_pos hq, List.cons_append, ih]
    · rw [List.takeWhile_cons (p := q), if_neg hq, List.dropWhile_cons, if_neg hq,
        List.nil_append]

theorem dropWhile_subclass (p q : Char → Bool) (h : ∀ c, q c = true → p c = true) :
    ∀ l : List Char, (l.dropWhile q).dropWhile p = l.dropWhile p := by
  intro l
  induction l with
  | nil => simp
  | cons c t ih =>
    by_cases hq : q c = true
    · rw [List.dropWhile_cons, if_pos hq, ih, List.dropWhile_cons, if_pos (h c hq)]
    · rw [List.dropWhile_cons, if_neg hq]

theorem dropWhile_head_not (p : Char → Bool) :
    ∀ (l : List Char) (d : Char) (t2 : List Char), l.dropWhile p = d :: t2 → p d = false := by
  intro l
  induction l with
  | nil => intro d t2 h; simp at h
  | cons c t ih =>
    intro d t2 h
    rw [List.dropWhile_cons] at h
    by_cases hc : p c = true
    · rw [if_pos hc] at h
      exact ih d t2 h
    · rw [if_neg hc] at h
      cases h
      rwa [Bool.not_eq_true] at hc

theorem searchBareRunGo_false (cls : Char → Bool) (minLen : Nat)
    (hcls : ∀ c, cls c = true → isWordChar c = true) :
    ∀ l : List Char, searchBareRunGo cls minLen false l
      = searchBareRunGo cls minLen true (l.dropWhile isWordChar) := by
  intro l
  induction l with
  | nil => simp [searchBareRunGo]
  | cons c t ih =>
    by_cases hw : isWordChar c = true
    · rw [List.dropWhile_cons, if_pos hw, ← ih]
      rw [searchBareRunGo]
      simp [hw]
    · have hw2 : isWordChar c = false := by rwa [Bool.not_eq_true] at hw
      have hc : cls c = false := by
        cases hcc : cls c
        · rfl
        · exact absurd (hcls c hcc) (by simp [hw2])
      rw [List.dropWhile_cons, if_neg hw]
      rw [searchBareRunGo, searchBareRunGo]
      simp [hc, hw2]

theorem searchBareRunGo_true (cls : Char → Bool) (minLen : Nat)
    (hcls : ∀ c, cls c = true → isWordChar c = true) :
    ∀ (n : Nat) (l : List Char), l.length ≤ n →
      searchBareRunGo cls minLen true l
        = (wordRuns l).find? (fun run => run.all cls && minLen ≤ run.length) := by
  intro n
  induction n with
  | zero =>
    intro l hl
    have hnil : l = [] := List.length_eq_zero.mp (Nat.le_zero.mp hl)
    subst hnil
    simp [searchBareRunGo, wordRuns]
  | succ n ih =>
    intro l hl
    cases l with
    | nil => simp [searchBareRunGo, wordRuns]
    | cons c t =>
      have hlt : t.length ≤ n := by simpa using hl
      have hlen3 : (t.dropWhile isWordChar).length ≤ n :=
        Nat.le_trans (List.dropWhile_sublist _).length_le hlt
      by_cases hc : cls c = true
      · have hw : isWordChar c = true := hcls c hc
        rw [searchBareRunGo, wordRuns]
        simp only [hc, hw, Bool.and_true, if_true, List.find?_cons]
        rcases hrest : t.dropWhile cls with _ | ⟨d, t2⟩
        · -- the whole tail lies in the class
          have htall : ∀ x ∈ t, cls x = true := List.dropWhile_eq_nil_iff.mp hrest
          have htw : t.takeWhile cls = t := takeWhile_of_all htall
          have htww : t.takeWhile isWordChar = t :=
            takeWhile_of_all (fun x hx => hcls x (htall x hx))
          have hdw : t.dropWhile isWordChar = [] :=
            List.dropWhile_eq_nil_iff.mpr (fun x hx => hcls x (htall x hx))
          have hall : ((c :: t).all cls) = true := by
            simp only [List.all_cons, hc, Bool.true_and, List.all_eq_true]
            exact htall
          rw [htw, htww, hdw]
          simp only [hall, Bool.true_and, List.head?_nil]
          by_cases hm : minLen ≤ t.length + 1
          · simp [hm]
          · simp [hm, searchBareRunGo, wordRuns]
        · have hdcls : cls d = false := dropWhile_head_not cls t d t2 hrest
          have htsplit : t.takeWhile isWordChar
              = t.takeWhile cls ++ (d :: t2).takeWhile isWordChar := by
            rw [← hrest]; exact takeWhile_subclass isWordChar cls hcls t
          have hdsplit : (d :: t2).dropWhile isWordChar = t.dropWhile isWordChar := by
            rw [← hrest]; exact dropWhile_subclass isWordChar cls hcls t
          by_cases hd : isWordChar d = true
          · -- word character right after the class run: no boundary
            have hR : (c :: t.takeWhile isWordChar).all cls = false := by
              rw [htsplit, List.takeWhile_cons, if_pos hd]
              simp [hdcls]
            simp only [List.head?_cons, hd, Bool.not_true, Bool.and_false,
              Bool.false_eq_true, if_false, hR, Bool.false_and]
            rw [searchBareRunGo_false cls minLen hcls, hdsplit]
            exact ih _ hlen3
          · -- non-word character after the run: boundary holds
            have hd2 : isWordChar d = false := by rwa [Bool.not_eq_true] at hd
            have htww2 : t.takeWhile isWordChar = t.takeWhile cls := by
              rw [htsplit, List.takeWhile_cons, if_neg hd, List.append_nil]
            have hall : ((c :: t.takeWhile cls).all cls) = true := by
              simp only [List.all_cons, hc, Bool.true_and]
              exact List.all_takeWhile
            rw [htww2]
            simp only [List.head?_cons, hd2, Bool.not_false, Bool.and_true, hall,
              Bool.true_and]
            by_cases hm : minLen ≤ (t.takeWhile cls).length + 1
            · simp [hm]
            · have hmb : decide (minLen ≤ (c :: List.takeWhile cls t).length) = false :=
                decide_eq_false (by simpa using hm)
              rw [hmb]
              simp only [Bool.false_eq_true, if_false]
              rw [searchBareRunGo_false cls minLen hcls, hdsplit]
              exact ih _ hlen3
      · have hc2 : cls c = false := by rwa [Bool.not_eq_true] at hc
        by_cases hw : isWordChar c = true
        · rw [searchBareRunGo, wordRuns]
          simp only [hc2, Bool.false_and, Bool.false_eq_true, if_false, hw, if_true]
          have hR : (c :: t.takeWhile isWordChar).all cls = false := by
            simp [List.all_cons, hc2]
          rw [List.find?_cons]
          simp only [hR, Bool.false_and, hw, Bool.not_true]
          rw [searchBareRunGo_false cls minLen hcls]
          exact ih _ hlen3
        · have hw2 : isWordChar c = false := by rwa [Bool.not_eq_true] at hw
          rw [searchBareRunGo, wordRuns]
          simp only [hc2, Bool.false_and, Bool.false_eq_true, if_false, hw2, if_true,
            Bool.not_false]
          exact ih t hlt

/-- The scanner agrees with the specification-side description of a bare
run for any class of word characters. -/
theorem searchBareRun_eq_spec (cls : Char → Bool) (minLen : Nat)
    (hcls : ∀ c, cls c = true → isWordChar c = true) (l : List Char) :
    searchBareRun cls minLen l = specBareRun cls minLen l :=
  searchBareRunGo_true cls minLen hcls l.length l (Nat.le_refl _)

theorem firstRuleMatch_eq_findSome (l : List Char) :
    ∀ rs : List RefPattern,
      firstRuleMatch rs l
        = rs.findSome? (fun r => (searchRule r l).map (fun v => (r.field, v))) := by
  intro rs
  induction rs with
  | nil => rfl
  | cons r rs ih =>
    rw [firstRuleMatch, List.findSome?_cons]
    cases searchRule r l with
    | none => simpa using ih
    | some v => rfl

theorem digit_subclass : ∀ c : Char, (fun c : Char => c.isDigit) c = true → isWordChar c = true := by
  intro c h
  simp only [isWordChar]
  simp only at h
  simp [h]

theorem upperAlnum_subclass : ∀ c : Char, isUpperAlnum c = true → isWordChar c = true := by
  intro c h
  simp only [isUpperAlnum, Bool.or_eq_true, Bool.and_eq_true] at h
  rcases h with ⟨h1, h2⟩ | h
  · have : c.isUpper = true := by
      simp [Char.isUpper]
      exact ⟨by simpa using h1, by simpa using h2⟩
    simp [isWordChar, Char.isAlpha, this]
  · simp [isWordChar, h]

/-- C4: the extractor evaluates the rule list in order with the first
matching rule winning, and otherwise classifies the leftmost bare run of
six or more digits as EBELN when exactly 10 digits, MATNR when exactly
18, and a generic numeric reference otherwise; failing that, the leftmost
bare run of six or more uppercase alphanumerics becomes a generic code;
failing that, the sentinel is returned.  Stated as extensional equality
with `claimC4Spec`, whose fallbacks use the independent maximal-word-run
description of a bare run. -/
theorem c4_reference_extractor (s : String) :
    extract_error_reference (PyValue.pyStr s) = claimC4Spec s := by
  show extract_ref_from_string s = claimC4Spec s
  unfold extract_ref_from_string claimC4Spec
  dsimp only
  rw [firstRuleMatch_eq_findSome]
  rw [searchBareRun_eq_spec _ _ digit_subclass, searchBareRun_eq_spec _ _ upperAlnum_subclass]

/-! ## Entity pipeline: core rewriting lemmas (claims C1, C2) -/

theorem isPrefixOf_append_self (p rest : List Char) : p.isPrefixOf (p ++ rest) = true :=
  List.isPrefixOf_iff_prefix.mpr (List.prefix_append p rest)

theorem disagreesAt_spec {pat q : List Char} (h : disagreesAt pat q = true) :
    ∃ n, n < pat.length ∧ n < q.length ∧ pat[n]? ≠ q[n]? := by
  unfold disagreesAt at h
  obtain ⟨n, hn, hne⟩ := List.any_eq_true.mp h
  rw [List.mem_range] at hn
  exact ⟨n, Nat.lt_of_lt_of_le hn (Nat.min_le_left _ _),
    Nat.lt_of_lt_of_le hn (Nat.min_le_right _ _), bne_iff_ne.mp hne⟩

theorem isPrefixOf_eq_false_of_disagreesAt (pat q rest : List Char)
    (h : disagreesAt pat q = true) : pat.isPrefixOf (q ++ rest) = false := by
  obtain ⟨n, hnp, hnq, hne⟩ := disagreesAt_spec h
  cases hpre : pat.isPrefixOf (q ++ rest) with
  | false => rfl
  | true =>
    exfalso
    obtain ⟨s, hs⟩ := List.isPrefixOf_iff_prefix.mp hpre
    apply hne
    have h1 : (q ++ rest)[n]? = q[n]? := by
      rw [List.getElem?_append, if_pos hnq]
    have h2 : (pat ++ s)[n]? = pat[n]? := by
      rw [List.getElem?_append, if_pos hnp]
    rw [← h1, ← hs, h2]

theorem allDisagree_cons_head {pat : List Char} {c : Char} {p2 : List Char}
    (hp : allDisagree pat (c :: p2) = true) : disagreesAt pat (c :: p2) = true := by
  have := List.all_eq_true.mp hp 0 (by simp [List.mem_range])
  simpa using this

theorem allDisagree_cons_tail {pat : List Char} {c : Char} {p2 : List Char}
    (hp : allDisagree pat (c :: p2) = true) : allDisagree pat p2 = true := by
  rw [allDisagree, List.all_eq_true]
  intro i hi
  rw [List.mem_range] at hi
  have := List.all_eq_true.mp hp (i + 1) (by simp [List.mem_range]; omega)
  simpa using this

theorem allDisagree_self (pat : List Char) (hpat : pat ≠ []) :
    allDisagree pat pat = false := by
  rw [allDisagree, List.all_eq_false]
  refine ⟨0, by simp [List.mem_range, List.length_pos.mpr hpat], ?_⟩
  simp [disagreesAt]

theorem allDisagree_singleton2 (x : Char) (pt : List Char) (c : Char) (h : x ≠ c) :
    allDisagree (x :: pt) [c] = true := by
  rw [allDisagree, List.all_eq_true]
  intro i hi
  simp only [List.length_singleton, List.mem_range, Nat.lt_one_iff] at hi
  subst hi
  rw [List.drop_zero, disagreesAt, List.any_eq_true]
  refine ⟨0, ?_, ?_⟩
  · simp [List.mem_range]
  · simpa using h

theorem replaceSub_nil (pat rep : List Char) : replaceSub pat rep [] = [] := by
  rw [replaceSub]

theorem countSub_nil (pat : List Char) : countSub pat [] = 0 := by
  rw [countSub]

theorem replaceSub_clean_append (pat rep : List Char) :
    ∀ (p rest : List Char), allDisagree pat p = true →
      replaceSub pat rep (p ++ rest) = p ++ replaceSub pat rep rest := by
  intro p
  induction p with
  | nil => intro rest _; simp
  | cons c p2 ih =>
    intro rest hp
    have h0 := allDisagree_cons_head hp
    have hpre : pat.isPrefixOf ((c :: p2) ++ rest) = false :=
      isPrefixOf_eq_false_of_disagreesAt pat (c :: p2) rest h0
    rw [List.cons_append] at hpre
    have hcond : ¬(pat ≠ [] ∧ pat.isPrefixOf (c :: (p2 ++ rest)) = true) := by
      intro hand
      rw [hpre] at hand
      exact Bool.false_ne_true hand.2
    rw [List.cons_append, replaceSub, if_neg hcond]
    rw [ih rest (allDisagree_cons_tail hp), List.cons_append]

theorem countSub_clean_append (pat : List Char) :
    ∀ (p rest : List Char), allDisagree pat p = true →
      countSub pat (p ++ rest) = countSub pat rest := by
  intro p
  induction p with
  | nil => intro rest _; simp
  | cons c p2 ih =>
    intro rest hp
    have h0 := allDisagree_cons_head hp
    have hpre : pat.isPrefixOf ((c :: p2) ++ rest) = false :=
      isPrefixOf_eq_false_of_disagreesAt pat (c :: p2) rest h0
    rw [List.cons_append] at hpre
    have hcond : ¬(pat ≠ [] ∧ pat.isPrefixOf (c :: (p2 ++ rest)) = true) := by
      intro hand
      rw [hpre] at hand
      exact Bool.false_ne_true hand.2
    rw [List.cons_append, countSub, if_neg hcond]
    rw [ih rest (allDisagree_cons_tail hp)]

theorem replaceSub_pat_append (pat rep rest : List Char) (hpat : pat ≠ []) :
    replaceSub pat rep (pat ++ rest) = rep ++ replaceSub pat rep rest := by
  obtain ⟨c, pt, rfl⟩ : ∃ c pt, pat = c :: pt := by
    cases pat with
    | nil => exact absurd rfl hpat
    | cons c pt => exact ⟨c, pt, rfl⟩
  rw [List.cons_append, replaceSub]
  rw [if_pos ⟨by simp, by rw [← List.cons_append]; exact isPrefixOf_append_self _ _⟩]
  congr 1
  rw [← List.cons_append, List.drop_left]

theorem countSub_pat_append (pat rest : List Char) (hpat : pat ≠ []) :
    countSub pat (pat ++ rest) = 1 + countSub pat rest := by
  obtain ⟨c, pt, rfl⟩ : ∃ c pt, pat = c :: pt := by
    cases pat with
    | nil => exact absurd rfl hpat
    | cons c pt => exact ⟨c, pt, rfl⟩
  rw [List.cons_append, countSub]
  rw [if_pos ⟨by simp, by rw [← List.cons_append]; exact isPrefixOf_append_self _ _⟩]
  congr 1
  rw [← List.cons_append, List.drop_left]

theorem decodeXml_nil : decodeXml [] = [] := by
  rw [decodeXml]

theorem decodeXml_cons_ne_amp (c : Char) (t : List Char) (h : c ≠ '&') :
    decodeXml (c :: t) = c :: decodeXml t := by
  rw [decodeXml, if_neg h]

theorem decodeXml_no_amp_append (p : List Char) (hamp : '&' ∉ p) :
    ∀ rest, decodeXml (p ++ rest) = p ++ decodeXml rest := by
  induction p with
  | nil => intro rest; simp
  | cons c p2 ih =>
    intro rest
    have hc : c ≠ '&' := fun he => hamp (he ▸ List.mem_cons_self c p2)
    rw [List.cons_append, decodeXml_cons_ne_amp c _ hc,
      ih (fun hm => hamp (List.mem_cons_of_mem c hm)) rest, List.cons_append]

theorem decodeXml_no_amp (p : List Char) (hamp : '&' ∉ p) : decodeXml p = p := by
  have := decodeXml_no_amp_append p hamp []
  simpa [decodeXml_nil] using this

theorem decSelfCont_no_amp (p : List Char) (hamp : '&' ∉ p) : DecSelfCont p :=
  fun rest => by rw [decodeXml_no_amp_append p hamp rest, decodeXml_no_amp p hamp]

theorem decode_amp (rest : List Char) :
    decodeXml ("&amp;".data ++ rest) = '&' :: decodeXml rest := by
  show decodeXml ('&' :: ("amp;".data ++ rest)) = '&' :: decodeXml rest
  rw [decodeXml, if_pos rfl, if_pos (isPrefixOf_append_self "amp;".data rest)]
  have hdrop : List.drop 4 ("amp;".data ++ rest) = rest := List.drop_left "amp;".data rest
  rw [hdrop]

theorem decode_lt (rest : List Char) :
    decodeXml ("&lt;".data ++ rest) = '<' :: decodeXml rest := by
  show decodeXml ('&' :: ("lt;".data ++ rest)) = '<' :: decodeXml rest
  rw [decodeXml, if_pos rfl,
    if_neg (by rw [isPrefixOf_eq_false_of_disagreesAt _ _ _ (by decide)]; simp),
    if_pos (isPrefixOf_append_self "lt;".data rest)]
  have hdrop : List.drop 3 ("lt;".data ++ rest) = rest := List.drop_left "lt;".data rest
  rw [hdrop]

theorem decode_gt (rest : List Char) :
    decodeXml ("&gt;".data ++ rest) = '>' :: decodeXml rest := by
  show decodeXml ('&' :: ("gt;".data ++ rest)) = '>' :: decodeXml rest
  rw [decodeXml, if_pos rfl,
    if_neg (by rw [isPrefixOf_eq_false_of_disagreesAt _ _ _ (by decide)]; simp),
    if_neg (by rw [isPrefixOf_eq_false_of_disagreesAt _ _ _ (by decide)]; simp),
    if_pos (isPrefixOf_append_self "gt;".data rest)]
  have hdrop : List.drop 3 ("gt;".data ++ rest) = rest := List.drop_left "gt;".data rest
  rw [hdrop]

theorem decode_quot (rest : List Char) :
    decodeXml (EQ ++ rest) = '"' :: decodeXml rest := by
  show decodeXml ('&' :: ("quot;".data ++ rest)) = '"' :: decodeXml rest
  rw [decodeXml, if_pos rfl,
    if_neg (by rw [isPrefixOf_eq_false_of_disagreesAt _ _ _ (by decide)]; simp),
    if_neg (by rw [isPrefixOf_eq_false_of_disagreesAt _ _ _ (by decide)]; simp),
    if_neg (by rw [isPrefixOf_eq_false_of_disagreesAt _ _ _ (by decide)]; simp),
    if_pos (isPrefixOf_append_self "quot;".data rest)]
  have hdrop : List.drop 5 ("quot;".data ++ rest) = rest := List.drop_left "quot;".data rest
  rw [hdrop]

theorem decode_apos (rest : List Char) :
    decodeXml ("&apos;".data ++ rest) = '\'' :: decodeXml rest := by
  show decodeXml ('&' :: ("apos;".data ++ rest)) = '\'' :: decodeXml rest
  rw [decodeXml, if_pos rfl,
    if_neg (by rw [isPrefixOf_eq_false_of_disagreesAt _ _ _ (by decide)]; simp),
    if_neg (by rw [isPrefixOf_eq_false_of_disagreesAt _ _ _ (by decide)]; simp),
    if_neg (by rw [isPrefixOf_eq_false_of_disagreesAt _ _ _ (by decide)]; simp),
    if_neg (by rw [isPrefixOf_eq_false_of_disagreesAt _ _ _ (by decide)]; simp),
    if_pos (isPrefixOf_append_self "apos;".data rest)]
  have hdrop : List.drop 5 ("apos;".data ++ rest) = rest := List.drop_left "apos;".data rest
  rw [hdrop]

theorem decode_e10 (rest : List Char) :
    decodeXml (E10 ++ rest) = '\n' :: decodeXml rest := by
  show decodeXml ('&' :: ("#10;".data ++ rest)) = '\n' :: decodeXml rest
  rw [decodeXml, if_pos rfl,
    if_neg (by rw [isPrefixOf_eq_false_of_disagreesAt _ _ _ (by decide)]; simp),
    if_neg (by rw [isPrefixOf_eq_false_of_disagreesAt _ _ _ (by decide)]; simp),
    if_neg (by rw [isPrefixOf_eq_false_of_disagreesAt _ _ _ (by decide)]; simp),
    if_neg (by rw [isPrefixOf_eq_false_of_disagreesAt _ _ _ (by decide)]; simp),
    if_neg (by rw [isPrefixOf_eq_false_of_disagreesAt _ _ _ (by decide)]; simp),
    if_pos (isPrefixOf_append_self "#10;".data rest)]
  have hdrop : List.drop 4 ("#10;".data ++ rest) = rest := List.drop_left "#10;".data rest
  rw [hdrop]

theorem decode_e13 (rest : List Char) :
    decodeXml (E13 ++ rest) = '\r' :: decodeXml rest := by
  show decodeXml ('&' :: ("#13;".data ++ rest)) = '\r' :: decodeXml rest
  rw [decodeXml, if_pos rfl,
    if_neg (by rw [isPrefixOf_eq_false_of_disagreesAt _ _ _ (by decide)]; simp),
    if_neg (by rw [isPrefixOf_eq_false_of_disagreesAt _ _ _ (by decide)]; simp),
    if_neg (by rw [isPrefixOf_eq_false_of_disagreesAt _ _ _ (by decide)]; simp),
    if_neg (by rw [isPrefixOf_eq_false_of_disagreesAt _ _ _ (by decide)]; simp),
    if_neg (by rw [isPrefixOf_eq_false_of_disagreesAt _ _ _ (by decide)]; simp),
    if_neg (by rw [isPrefixOf_eq_false_of_disagreesAt _ _ _ (by decide)]; simp),
    if_pos (isPrefixOf_append_self "#13;".data rest)]
  have hdrop : List.drop 4 ("#13;".data ++ rest) = rest := List.drop_left "#13;".data rest
  rw [hdrop]

theorem stage_step (pat rep : List Char) (hpat : pat ≠ []) (f : Tok → List Char) :
    ∀ ts : List Tok, (∀ t ∈ ts, f t = pat ∨ allDisagree pat (f t) = true) →
      replaceSub pat rep ((ts.map f).flatten) = (ts.map (mapPiece pat rep f)).flatten := by
  intro ts
  induction ts with
  | nil => intro _; simp [replaceSub_nil]
  | cons t ts ih =>
    intro h
    rw [List.map_cons, List.map_cons, List.flatten_cons, List.flatten_cons]
    rcases h t (by simp) with hp | hd
    · rw [hp, replaceSub_pat_append pat rep _ hpat]
      rw [show mapPiece pat rep f t = rep from by rw [mapPiece]; simp [hp]]
      rw [ih (fun t2 ht2 => h t2 (by simp [ht2]))]
    · have hne : f t ≠ pat := by
        intro he
        rw [he, allDisagree_self pat hpat] at hd
        exact Bool.false_ne_true hd
      rw [replaceSub_clean_append pat rep _ _ hd]
      rw [show mapPiece pat rep f t = f t from by rw [mapPiece]; simp [hne]]
      rw [ih (fun t2 ht2 => h t2 (by simp [ht2]))]

theorem countSub_flatten (pat : List Char) (hpat : pat ≠ []) (f : Tok → List Char) :
    ∀ ts : List Tok, (∀ t ∈ ts, f t = pat ∨ allDisagree pat (f t) = true) →
      countSub pat ((ts.map f).flatten) = ts.countP (fun t => f t == pat) := by
  intro ts
  induction ts with
  | nil => intro _; simp [countSub_nil]
  | cons t ts ih =>
    intro h
    rw [List.map_cons, List.flatten_cons, List.countP_cons]
    rcases h t (by simp) with hp | hd
    · rw [hp, countSub_pat_append pat _ hpat]
      rw [ih (fun t2 ht2 => h t2 (by simp [ht2]))]
      simp [hp]
      omega
    · have hne : f t ≠ pat := by
        intro he
        rw [he, allDisagree_self pat hpat] at hd
        exact Bool.false_ne_true hd
      rw [countSub_clean_append pat _ _ hd]
      rw [ih (fun t2 ht2 => h t2 (by simp [ht2]))]
      simp [hne]

theorem stage_decode (f : Tok → List Char) :
    ∀ ts : List Tok, (∀ t ∈ ts, DecSelfCont (f t)) →
      decodeXml ((ts.map f).flatten) = (ts.map (decPiece f)).flatten := by
  intro ts
  induction ts with
  | nil => intro _; simp [decodeXml_nil]
  | cons t ts ih =>
    intro h
    rw [List.map_cons, List.map_cons, List.flatten_cons, List.flatten_cons]
    rw [h t (by simp) ((ts.map f).flatten)]
    rw [ih (fun t2 ht2 => h t2 (by simp [ht2]))]
    rfl

theorem not_mem_flatten_of_pieces {c : Char} {f : Tok → List Char} :
    ∀ ts : List Tok, (∀ t ∈ ts, c ∉ f t) → c ∉ (ts.map f).flatten := by
  intro ts h hmem
  rw [List.mem_flatten] at hmem
  obtain ⟨l, hl, hcl⟩ := hmem
  obtain ⟨t, ht, rfl⟩ := List.mem_map.mp hl
  exact h t ht hcl

theorem mem_replaceSub (pat rep : List Char) {c : Char} :
    ∀ l : List Char, c ∈ replaceSub pat rep l → c ∈ l ∨ c ∈ rep := by
  intro l
  induction l using replaceSub.induct pat rep with
  | case1 => intro h; simp [replaceSub_nil] at h
  | case2 x t hcond ih =>
    rw [replaceSub, if_pos hcond]
    intro h
    rcases List.mem_append.mp h with h2 | h2
    · exact Or.inr h2
    · rcases ih h2 with h3 | h3
      · exact Or.inl (List.mem_of_mem_drop h3)
      · exact Or.inr h3
  | case3 x t hcond ih =>
    rw [replaceSub, if_neg hcond]
    intro h
    rcases List.mem_cons.mp h with h2 | h2
    · exact Or.inl (h2 ▸ List.mem_cons_self x t)
    · rcases ih h2 with h3 | h3
      · exact Or.inl (List.mem_cons_of_mem x h3)
      · exact Or.inr h3

theorem countSub_pos_of_infix (pat : List Char) (hpat : pat ≠ []) :
    ∀ l : List Char, pat <:+: l → 0 < countSub pat l := by
  intro l
  induction l using countSub.induct pat with
  | case1 =>
    intro h
    have hle := List.IsInfix.length_le h
    simp at hle
    exact absurd hle hpat
  | case2 x t hcond ih =>
    intro _
    rw [countSub, if_pos hcond]
    omega
  | case3 x t hcond ih =>
    intro h
    rw [countSub, if_neg hcond]
    rcases (List.infix_cons_iff).mp h with h2 | h2
    · exact absurd ⟨hpat, List.isPrefixOf_iff_prefix.mpr h2⟩ hcond
    · exact ih h2

theorem rep_infix_replaceSub (pat rep : List Char) :
    ∀ l : List Char, 0 < countSub pat l → rep <:+: replaceSub pat rep l := by
  intro l
  induction l using replaceSub.induct pat rep with
  | case1 =>
    intro h
    rw [countSub_nil] at h
    omega
  | case2 x t hcond ih =>
    intro _
    rw [replaceSub, if_pos hcond]
    exact (List.prefix_append rep _).isInfix
  | case3 x t hcond ih =>
    intro h
    rw [countSub, if_neg hcond] at h
    rw [replaceSub, if_neg hcond]
    exact List.infix_cons (ih h)

theorem allDisagree_head_ne (pat : List Char) (x : Char) (hx : pat.head? = some x)
    (c : Char) (h : x ≠ c) : allDisagree pat [c] = true := by
  cases pat with
  | nil => simp at hx
  | cons p pt =>
    rw [List.head?_cons, Option.some.injEq] at hx
    subst hx
    exact allDisagree_singleton2 p pt c h

theorem decode_amp2 (rest : List Char) :
    decodeXml ("&amp;".data ++ rest) = ['&'] ++ decodeXml rest := decode_amp rest

theorem decode_lt2 (rest : List Char) :
    decodeXml ("&lt;".data ++ rest) = ['<'] ++ decodeXml rest := decode_lt rest

theorem decode_gt2 (rest : List Char) :
    decodeXml ("&gt;".data ++ rest) = ['>'] ++ decodeXml rest := decode_gt rest

theorem decode_quot2 (rest : List Char) :
    decodeXml (EQ ++ rest) = ['"'] ++ decodeXml rest := decode_quot rest

theorem decode_apos2 (rest : List Char) :
    decodeXml ("&apos;".data ++ rest) = ['\''] ++ decodeXml rest := decode_apos rest

theorem decode_e10b (rest : List Char) :
    decodeXml (E10 ++ rest) = ['\n'] ++ decodeXml rest := decode_e10 rest

theorem decode_e13b (rest : List Char) :
    decodeXml (E13 ++ rest) = ['\r'] ++ decodeXml rest := decode_e13 rest

theorem serialize_eq (v : List Char) :
    serialize_cell_value_noedit v =
      replaceSub TQ EQ (replaceSub T13 E13 (replaceSub T10 E10
        (replaceSub ['>'] "&gt;".data (replaceSub ['"'] EQ (replaceSub ['<'] "&lt;".data
        (replaceSub ['&'] "&amp;".data (decodeXml
        (replaceSub EQ TQ (replaceSub E13 T13 (replaceSub E10 T10
        (replaceSub ['"'] EQ (replaceSub ['\r'] E13 (replaceSub ['\n'] E10
        (replaceSub PHQ EQ (replaceSub PH13 E13 (replaceSub PH10 E10
        (replaceSub ['>'] "&gt;".data (replaceSub ['<'] "&lt;".data
        (replaceSub ['&'] "&amp;".data (decodeXml
        (replaceSub EQ PHQ (replaceSub E13 PH13
          (replaceSub E10 PH10 v))))))))))))))))))))))) := rfl

theorem disagreesAt_self_false (pat : List Char) : disagreesAt pat pat = false := by
  rw [disagreesAt, List.any_eq_false]
  intro n _
  simp

theorem disagreesAt_singleton (x : Char) (pt : List Char) (c : Char) (h : x ≠ c) :
    disagreesAt (x :: pt) [c] = true := by
  rw [disagreesAt, List.any_eq_true]
  refine ⟨0, ?_, ?_⟩
  · simp [List.mem_range]
  · simpa using h

theorem isPrefixOf_append_split (d : List Char) :
    ∀ (p R : List Char),
      d.isPrefixOf (p ++ R) =
        (d.isPrefixOf p || (p.isPrefixOf d && (d.drop p.length).isPrefixOf R)) := by
  induction d with
  | nil => intro p R; simp [List.isPrefixOf]
  | cons y d2 ih =>
    intro p R
    cases p with
    | nil => simp [List.isPrefixOf]
    | cons x p2 =>
      rw [List.cons_append]
      show (y :: d2).isPrefixOf (x :: (p2 ++ R)) = _
      rw [List.isPrefixOf, List.isPrefixOf, List.isPrefixOf]
      by_cases hyx : y = x
      · subst hyx
        simp only [beq_self_eq_true, Bool.true_and]
        rw [ih p2 R, List.length_cons, List.drop_succ_cons]
      · have h1 : (y == x) = false := beq_eq_false_iff_ne.mpr hyx
        have h2 : (x == y) = false := beq_eq_false_iff_ne.mpr (Ne.symm hyx)
        rw [h1, h2]
        simp

theorem isPrefixOf_false_of_short (d q : List Char) (h : q.length < d.length) :
    d.isPrefixOf q = false := by
  cases hpre : d.isPrefixOf q with
  | false => rfl
  | true =>
    exfalso
    have := List.IsPrefix.length_le (List.isPrefixOf_iff_prefix.mp hpre)
    omega

theorem noPre_step (d p rest : List Char) (h1 : d.isPrefixOf p = false)
    (h2 : p.isPrefixOf d = false) : d.isPrefixOf (p ++ rest) = false := by
  rw [isPrefixOf_append_split, h1, h2]
  rfl

theorem noPre_step_cont (d p rest : List Char) (h1 : d.isPrefixOf p = false)
    (h2 : (d.drop p.length).isPrefixOf rest = false) :
    d.isPrefixOf (p ++ rest) = false := by
  rw [isPrefixOf_append_split, h1, h2, Bool.and_false]
  rfl

theorem replaceSub_almost_clean (pat rep : List Char) :
    ∀ (p rest : List Char),
      (∀ i, i < p.length → disagreesAt pat (p.drop i) = true ∨
        pat.isPrefixOf (p.drop i ++ rest) = false) →
      replaceSub pat rep (p ++ rest) = p ++ replaceSub pat rep rest := by
  intro p
  induction p with
  | nil => intro rest _; simp
  | cons c p2 ih =>
    intro rest hp
    have h0 : pat.isPrefixOf ((c :: p2) ++ rest) = false := by
      rcases hp 0 (by simp) with hd | hf
      · rw [List.drop_zero] at hd
        exact isPrefixOf_eq_false_of_disagreesAt pat (c :: p2) rest hd
      · rwa [List.drop_zero] at hf
    rw [List.cons_append] at h0
    have hcond : ¬(pat ≠ [] ∧ pat.isPrefixOf (c :: (p2 ++ rest)) = true) := by
      intro hand
      rw [h0] at hand
      exact Bool.false_ne_true hand.2
    rw [List.cons_append, replaceSub, if_neg hcond]
    rw [ih rest ?_, List.cons_append]
    intro i hi
    have := hp (i + 1) (by simp; omega)
    simpa using this

theorem guardOk_singleton (pat : List Char) (D : List (List Char)) (x c : Char)
    (hx : pat.head? = some x) (h : x ≠ c) : GuardOk pat D [c] := by
  intro i hi
  simp only [List.length_singleton, Nat.lt_one_iff] at hi
  subst hi
  left
  rw [List.drop_zero]
  cases pat with
  | nil => simp at hx
  | cons p pt =>
    rw [List.head?_cons, Option.some.injEq] at hx
    subst hx
    exact disagreesAt_singleton p pt c h

theorem guardOk_ne_pat {pat : List Char} {D : List (List Char)} {p : List Char}
    (hpat : pat ≠ []) (hg : GuardOk pat D p) : p ≠ pat := by
  intro he
  subst he
  rcases hg 0 (List.length_pos.mpr hpat) with hd | ⟨hl, _⟩
  · rw [List.drop_zero, disagreesAt_self_false] at hd
    exact Bool.false_ne_true hd
  · omega

theorem noPre_nilD (f : Tok → List Char) :
    ∀ ts : List Tok, OkToks ts → ∀ d ∈ ([] : List (List Char)),
      d.isPrefixOf ((ts.map f).flatten) = false := by
  intro ts _ d hd
  exact absurd hd (List.not_mem_nil d)

theorem stage_step2 (pat rep : List Char) (hpat : pat ≠ []) (f : Tok → List Char)
    (D : List (List Char))
    (hD : ∀ ts : List Tok, OkToks ts → ∀ d ∈ D,
      d.isPrefixOf ((ts.map f).flatten) = false)
    (hcon : ∀ t, OkTok t → f t = pat ∨ GuardOk pat D (f t)) :
    ∀ ts : List Tok, OkToks ts →
      replaceSub pat rep ((ts.map f).flatten) = (ts.map (mapPiece pat rep f)).flatten := by
  intro ts
  induction ts with
  | nil => intro _; simp [replaceSub_nil]
  | cons t ts ih =>
    intro hok
    have hokt : OkTok t := hok t (List.mem_cons_self t ts)
    have hok2 : OkToks ts := fun u hu => hok u (List.mem_cons_of_mem t hu)
    rw [List.map_cons, List.map_cons, List.flatten_cons, List.flatten_cons]
    rcases hcon t hokt with hp | hg
    · rw [hp, replaceSub_pat_append pat rep _ hpat]
      rw [show mapPiece pat rep f t = rep from by rw [mapPiece]; simp [hp]]
      rw [ih hok2]
    · have hne : f t ≠ pat := guardOk_ne_pat hpat hg
      rw [replaceSub_almost_clean pat rep (f t) _ ?_]
      · rw [show mapPiece pat rep f t = f t from by rw [mapPiece]; simp [hne]]
        rw [ih hok2]
      · intro i hi
        rcases hg i hi with hd | ⟨hl, hm⟩
        · exact Or.inl hd
        · right
          refine noPre_step_cont pat _ _ ?_ ?_
          · exact isPrefixOf_false_of_short pat _ (by rw [List.length_drop]; omega)
          · rw [List.length_drop]
            exact hD ts hok2 _ hm

theorem decodeVal_amp : decodeXml "&amp;".data = ['&'] := by
  have h := decode_amp2 []
  rwa [List.append_nil, decodeXml_nil, List.append_nil] at h

theorem decodeVal_lt : decodeXml "&lt;".data = ['<'] := by
  have h := decode_lt2 []
  rwa [List.append_nil, decodeXml_nil, List.append_nil] at h

theorem decodeVal_gt : decodeXml "&gt;".data = ['>'] := by
  have h := decode_gt2 []
  rwa [List.append_nil, decodeXml_nil, List.append_nil] at h

theorem decodeVal_quot : decodeXml EQ = ['"'] := by
  have h := decode_quot2 []
  rwa [List.append_nil, decodeXml_nil, List.append_nil] at h

theorem decodeVal_apos : decodeXml "&apos;".data = ['\''] := by
  have h := decode_apos2 []
  rwa [List.append_nil, decodeXml_nil, List.append_nil] at h

theorem decodeVal_e10 : decodeXml E10 = ['\n'] := by
  have h := decode_e10b []
  rwa [List.append_nil, decodeXml_nil, List.append_nil] at h

theorem decodeVal_e13 : decodeXml E13 = ['\r'] := by
  have h := decode_e13b []
  rwa [List.append_nil, decodeXml_nil, List.append_nil] at h

theorem decSelfCont_ent_amp : DecSelfCont "&amp;".data := by
  intro rest
  rw [decode_amp2, decodeVal_amp]

theorem decSelfCont_ent_lt : DecSelfCont "&lt;".data := by
  intro rest
  rw [decode_lt2, decodeVal_lt]

theorem decSelfCont_ent_gt : DecSelfCont "&gt;".data := by
  intro rest
  rw [decode_gt2, decodeVal_gt]

theorem decSelfCont_ent_quot : DecSelfCont EQ := by
  intro rest
  rw [decode_quot2, decodeVal_quot]

theorem decSelfCont_ent_apos : DecSelfCont "&apos;".data := by
  intro rest
  rw [decode_apos2, decodeVal_apos]

theorem decSelfCont_ent_e10 : DecSelfCont E10 := by
  intro rest
  rw [decode_e10b, decodeVal_e10]

theorem decSelfCont_ent_e13 : DecSelfCont E13 := by
  intro rest
  rw [decode_e13b, decodeVal_e13]

theorem singleton_ne_long (c : Char) (p : List Char) (h : p.length ≠ 1) : [c] ≠ p := by
  intro he
  rw [← he] at h
  exact h rfl

theorem singleton_ne_singleton {c d : Char} (h : c ≠ d) : [c] ≠ [d] := by
  simpa using h

theorem singleton_not_prefix_headne (c : Char) (d : List Char) (d0 : Char)
    (hh : d.head? = some d0) (h : c ≠ d0) : ([c]).isPrefixOf d = false := by
  cases d with
  | nil => simp at hh
  | cons x dr =>
    rw [List.head?_cons, Option.some.injEq] at hh
    subst hh
    simp [List.isPrefixOf, h]

theorem fser1_raw (c : Char) : fser1 (Tok.raw c) = [c] := by
  simp only [fser1, mapPiece, Tok.render]
  rw [if_neg (singleton_ne_long c E10 (by decide))]

theorem fser2_raw (c : Char) : fser2 (Tok.raw c) = [c] := by
  simp only [fser2, mapPiece, fser1_raw]
  rw [if_neg (singleton_ne_long c E13 (by decide))]

theorem fser3_raw (c : Char) : fser3 (Tok.raw c) = [c] := by
  simp only [fser3, mapPiece, fser2_raw]
  rw [if_neg (singleton_ne_long c EQ (by decide))]

theorem fser5_raw (c : Char) (h1 : c ≠ '&') : fser5 (Tok.raw c) = [c] := by
  simp only [fser5, mapPiece, serMid]
  rw [if_neg (singleton_ne_singleton h1)]

theorem fser6_raw (c : Char) (h1 : c ≠ '&') (h2 : c ≠ '<') : fser6 (Tok.raw c) = [c] := by
  simp only [fser6, mapPiece, fser5_raw c h1]
  rw [if_neg (singleton_ne_singleton h2)]

theorem fser7_raw (c : Char) (h1 : c ≠ '&') (h2 : c ≠ '<') (hg : c ≠ '>') :
    fser7 (Tok.raw c) = [c] := by
  simp only [fser7, mapPiece, fser6_raw c h1 h2]
  rw [if_neg (singleton_ne_singleton hg)]

theorem fser8_raw (c : Char) (h1 : c ≠ '&') (h2 : c ≠ '<') (hg : c ≠ '>') :
    fser8 (Tok.raw c) = [c] := by
  simp only [fser8, mapPiece, fser7_raw c h1 h2 hg]
  rw [if_neg (singleton_ne_long c PH10 (by decide))]

theorem fser9_raw (c : Char) (h1 : c ≠ '&') (h2 : c ≠ '<') (hg : c ≠ '>') :
    fser9 (Tok.raw c) = [c] := by
  simp only [fser9, mapPiece, fser8_raw c h1 h2 hg]
  rw [if_neg (singleton_ne_long c PH13 (by decide))]

theorem fser10_raw (c : Char) (h1 : c ≠ '&') (h2 : c ≠ '<') (hg : c ≠ '>') :
    fser10 (Tok.raw c) = [c] := by
  simp only [fser10, mapPiece, fser9_raw c h1 h2 hg]
  rw [if_neg (singleton_ne_long c PHQ (by decide))]

theorem fser11_raw (c : Char) (h1 : c ≠ '&') (h2 : c ≠ '<') (hg : c ≠ '>')
    (h3 : c ≠ '\n') : fser11 (Tok.raw c) = [c] := by
  simp only [fser11, mapPiece, fser10_raw c h1 h2 hg]
  rw [if_neg (singleton_ne_singleton h3)]

theorem fser12_raw (c : Char) (h1 : c ≠ '&') (h2 : c ≠ '<') (hg : c ≠ '>')
    (h3 : c ≠ '\n') (h4 : c ≠ '\r') : fser12 (Tok.raw c) = [c] := by
  simp only [fser12, mapPiece, fser11_raw c h1 h2 hg h3]
  rw [if_neg (singleton_ne_singleton h4)]

theorem fser13_raw (c : Char) (h1 : c ≠ '&') (h2 : c ≠ '<') (hg : c ≠ '>')
    (h3 : c ≠ '\n') (h4 : c ≠ '\r') (hq : c ≠ '"') : fser13 (Tok.raw c) = [c] := by
  simp only [fser13, mapPiece, fser12_raw c h1 h2 hg h3 h4]
  rw [if_neg (singleton_ne_singleton hq)]

theorem fser14_raw (c : Char) (h1 : c ≠ '&') (h2 : c ≠ '<') (hg : c ≠ '>')
    (h3 : c ≠ '\n') (h4 : c ≠ '\r') (hq : c ≠ '"') : fser14 (Tok.raw c) = [c] := by
  simp only [fser14, mapPiece, fser13_raw c h1 h2 hg h3 h4 hq]
  rw [if_neg (singleton_ne_long c E10 (by decide))]

theorem fser15_raw (c : Char) (h1 : c ≠ '&') (h2 : c ≠ '<') (hg : c ≠ '>')
    (h3 : c ≠ '\n') (h4 : c ≠ '\r') (hq : c ≠ '"') : fser15 (Tok.raw c) = [c] := by
  simp only [fser15, mapPiece, fser14_raw c h1 h2 hg h3 h4 hq]
  rw [if_neg (singleton_ne_long c E13 (by decide))]

theorem fser16_raw (c : Char) (h1 : c ≠ '&') (h2 : c ≠ '<') (hg : c ≠ '>')
    (h3 : c ≠ '\n') (h4 : c ≠ '\r') (hq : c ≠ '"') : fser16 (Tok.raw c) = [c] := by
  simp only [fser16, mapPiece, fser15_raw c h1 h2 hg h3 h4 hq]
  rw [if_neg (singleton_ne_long c EQ (by decide))]

theorem serMid2_raw (c : Char) (hq : c ≠ '"') (hg : c ≠ '>') :
    serMid2 (Tok.raw c) = [c] := by
  simp only [serMid2]
  rw [if_neg hq, if_neg hg]

theorem fser18_raw (c : Char) (h1 : c ≠ '&') (hq : c ≠ '"') (hg : c ≠ '>') :
    fser18 (Tok.raw c) = [c] := by
  simp only [fser18, mapPiece, serMid2_raw c hq hg]
  rw [if_neg (singleton_ne_singleton h1)]

theorem fser19_raw (c : Char) (h1 : c ≠ '&') (h2 : c ≠ '<') (hq : c ≠ '"') (hg : c ≠ '>') :
    fser19 (Tok.raw c) = [c] := by
  simp only [fser19, mapPiece, fser18_raw c h1 hq hg]
  rw [if_neg (singleton_ne_singleton h2)]

theorem fser20_raw (c : Char) (h1 : c ≠ '&') (h2 : c ≠ '<') (hq : c ≠ '"') (hg : c ≠ '>') :
    fser20 (Tok.raw c) = [c] := by
  simp only [fser20, mapPiece, fser19_raw c h1 h2 hq hg]
  rw [if_neg (singleton_ne_singleton hq)]

theorem fser21_raw (c : Char) (h1 : c ≠ '&') (h2 : c ≠ '<') (hq : c ≠ '"') (hg : c ≠ '>') :
    fser21 (Tok.raw c) = [c] := by
  simp only [fser21, mapPiece, fser20_raw c h1 h2 hq hg]
  rw [if_neg (singleton_ne_singleton hg)]

theorem fser22_raw (c : Char) (h1 : c ≠ '&') (h2 : c ≠ '<') (hq : c ≠ '"') (hg : c ≠ '>') :
    fser22 (Tok.raw c) = [c] := by
  simp only [fser22, mapPiece, fser21_raw c h1 h2 hq hg]
  rw [if_neg (singleton_ne_long c T10 (by decide))]

theorem fser23_raw (c : Char) (h1 : c ≠ '&') (h2 : c ≠ '<') (hq : c ≠ '"') (hg : c ≠ '>') :
    fser23 (Tok.raw c) = [c] := by
  simp only [fser23, mapPiece, fser22_raw c h1 h2 hq hg]
  rw [if_neg (singleton_ne_long c T13 (by decide))]

theorem fser24_raw (c : Char) (h1 : c ≠ '&') (h2 : c ≠ '<') (hq : c ≠ '"') (hg : c ≠ '>') :
    fser24 (Tok.raw c) = [c] := by
  simp only [fser24, mapPiece, fser23_raw c h1 h2 hq hg]
  rw [if_neg (singleton_ne_long c TQ (by decide))]

theorem serTok_raw (c : Char) (hq : c ≠ '"') (hg : c ≠ '>') :
    serTok (Tok.raw c) = [c] := by
  simp only [serTok]
  rw [if_neg hq, if_neg hg]

theorem fiser_raw (c : Char) (hq : c ≠ '"') (hg : c ≠ '>') : fiser (Tok.raw c) = [c] := by
  simp only [fiser, mapPiece, serTok_raw c hq hg]
  rw [if_neg (singleton_ne_long c E10 (by decide))]

theorem hconS1 : ∀ t, OkTok t → Tok.render t = E10 ∨ GuardOk E10 [] (Tok.render t) := by
  intro t h
  cases t with
  | raw c =>
    right
    rw [show Tok.render (Tok.raw c) = [c] from rfl]
    exact guardOk_singleton E10 [] '&' c (by decide) (Ne.symm h.1)
  | amp => decide
  | lt => decide
  | gt => decide
  | quot => decide
  | apos => decide
  | lf => decide
  | cr => decide

theorem hconS2 : ∀ t, OkTok t → fser1 t = E13 ∨ GuardOk E13 [] (fser1 t) := by
  intro t h
  cases t with
  | raw c =>
    right
    rw [fser1_raw c]
    exact guardOk_singleton E13 [] '&' c (by decide) (Ne.symm h.1)
  | amp => decide
  | lt => decide
  | gt => decide
  | quot => decide
  | apos => decide
  | lf => decide
  | cr => decide

theorem hconS3 : ∀ t, OkTok t → fser2 t = EQ ∨ GuardOk EQ [] (fser2 t) := by
  intro t h
  cases t with
  | raw c =>
    right
    rw [fser2_raw c]
    exact guardOk_singleton EQ [] '&' c (by decide) (Ne.symm h.1)
  | amp => decide
  | lt => decide
  | gt => decide
  | quot => decide
  | apos => decide
  | lf => decide
  | cr => decide

theorem hconS5 : ∀ t, OkTok t → serMid t = ['&'] ∨ GuardOk ['&'] [] (serMid t) := by
  intro t h
  cases t with
  | raw c =>
    right
    rw [show serMid (Tok.raw c) = [c] from rfl]
    exact guardOk_singleton ['&'] [] '&' c (by decide) (Ne.symm h.1)
  | amp => decide
  | lt => decide
  | gt => decide
  | quot => decide
  | apos => decide
  | lf => decide
  | cr => decide

theorem hconS6 : ∀ t, OkTok t → fser5 t = ['<'] ∨ GuardOk ['<'] [] (fser5 t) := by
  intro t h
  cases t with
  | raw c =>
    right
    rw [fser5_raw c h.1]
    exact guardOk_singleton ['<'] [] '<' c (by decide) (Ne.symm h.2.1)
  | amp => decide
  | lt => decide
  | gt => decide
  | quot => decide
  | apos => decide
  | lf => decide
  | cr => decide

theorem hconS7 : ∀ t, OkTok t → fser6 t = ['>'] ∨ GuardOk ['>'] [] (fser6 t) := by
  intro t h
  cases t with
  | raw c =>
    by_cases hg : c = '>'
    · subst hg; decide
    · right
      rw [fser6_raw c h.1 h.2.1]
      exact guardOk_singleton ['>'] [] '>' c (by decide) (Ne.symm hg)
  | amp => decide
  | lt => decide
  | gt => decide
  | quot => decide
  | apos => decide
  | lf => decide
  | cr => decide

theorem hconS8 : ∀ t, OkTok t → fser7 t = PH10 ∨ GuardOk PH10 D8 (fser7 t) := by
  intro t h
  cases t with
  | raw c =>
    by_cases hg : c = '>'
    · subst hg; decide
    · right
      rw [fser7_raw c h.1 h.2.1 hg]
      exact guardOk_singleton PH10 D8 '_' c (by decide) (Ne.symm h.2.2.2.2)
  | amp => decide
  | lt => decide
  | gt => decide
  | quot => decide
  | apos => decide
  | lf => decide
  | cr => decide

theorem hconS9 : ∀ t, OkTok t → fser8 t = PH13 ∨ GuardOk PH13 D9 (fser8 t) := by
  intro t h
  cases t with
  | raw c =>
    by_cases hg : c = '>'
    · subst hg; decide
    · right
      rw [fser8_raw c h.1 h.2.1 hg]
      exact guardOk_singleton PH13 D9 '_' c (by decide) (Ne.symm h.2.2.2.2)
  | amp => decide
  | lt => decide
  | gt => decide
  | quot => decide
  | apos => decide
  | lf => decide
  | cr => decide

theorem hconS10 : ∀ t, OkTok t → fser9 t = PHQ ∨ GuardOk PHQ [] (fser9 t) := by
  intro t h
  cases t with
  | raw c =>
    by_cases hg : c = '>'
    · subst hg; decide
    · right
      rw [fser9_raw c h.1 h.2.1 hg]
      exact guardOk_singleton PHQ [] '_' c (by decide) (Ne.symm h.2.2.2.2)
  | amp => decide
  | lt => decide
  | gt => decide
  | quot => decide
  | apos => decide
  | lf => decide
  | cr => decide

theorem hconS11 : ∀ t, OkTok t → fser10 t = ['\n'] ∨ GuardOk ['\n'] [] (fser10 t) := by
  intro t h
  cases t with
  | raw c =>
    by_cases hg : c = '>'
    · subst hg; decide
    · right
      rw [fser10_raw c h.1 h.2.1 hg]
      exact guardOk_singleton ['\n'] [] '\n' c (by decide) (Ne.symm h.2.2.1)
  | amp => decide
  | lt => decide
  | gt => decide
  | quot => decide
  | apos => decide
  | lf => decide
  | cr => decide

theorem hconS12 : ∀ t, OkTok t → fser11 t = ['\r'] ∨ GuardOk ['\r'] [] (fser11 t) := by
  intro t h
  cases t with
  | raw c =>
    by_cases hg : c = '>'
    · subst hg; decide
    · right
      rw [fser11_raw c h.1 h.2.1 hg h.2.2.1]
      exact guardOk_singleton ['\r'] [] '\r' c (by decide) (Ne.symm h.2.2.2.1)
  | amp => decide
  | lt => decide
  | gt => decide
  | quot => decide
  | apos => decide
  | lf => decide
  | cr => decide

theorem hconS13 : ∀ t, OkTok t → fser12 t = ['"'] ∨ GuardOk ['"'] [] (fser12 t) := by
  intro t h
  cases t with
  | raw c =>
    by_cases hq : c = '"'
    · subst hq; decide
    · by_cases hg : c = '>'
      · subst hg; decide
      · right
        rw [fser12_raw c h.1 h.2.1 hg h.2.2.1 h.2.2.2.1]
        exact guardOk_singleton ['"'] [] '"' c (by decide) (Ne.symm hq)
  | amp => decide
  | lt => decide
  | gt => decide
  | quot => decide
  | apos => decide
  | lf => decide
  | cr => decide

theorem hconS14 : ∀ t, OkTok t → fser13 t = E10 ∨ GuardOk E10 [] (fser13 t) := by
  intro t h
  cases t with
  | raw c =>
    by_cases hq : c = '"'
    · subst hq; decide
    · by_cases hg : c = '>'
      · subst hg; decide
      · right
        rw [fser13_raw c h.1 h.2.1 hg h.2.2.1 h.2.2.2.1 hq]
        exact guardOk_singleton E10 [] '&' c (by decide) (Ne.symm h.1)
  | amp => decide
  | lt => decide
  | gt => decide
  | quot => decide
  | apos => decide
  | lf => decide
  | cr => decide

theorem hconS15 : ∀ t, OkTok t → fser14 t = E13 ∨ GuardOk E13 [] (fser14 t) := by
  intro t h
  cases t with
  | raw c =>
    by_cases hq : c = '"'
    · subst hq; decide
    · by_cases hg : c = '>'
      · subst hg; decide
      · right
        rw [fser14_raw c h.1 h.2.1 hg h.2.2.1 h.2.2.2.1 hq]
        exact guardOk_singleton E13 [] '&' c (by decide) (Ne.symm h.1)
  | amp => decide
  | lt => decide
  | gt => decide
  | quot => decide
  | apos => decide
  | lf => decide
  | cr => decide

theorem hconS16 : ∀ t, OkTok t → fser15 t = EQ ∨ GuardOk EQ [] (fser15 t) := by
  intro t h
  cases t with
  | raw c =>
    by_cases hq : c = '"'
    · subst hq; decide
    · by_cases hg : c = '>'
      · subst hg; decide
      · right
        rw [fser15_raw c h.1 h.2.1 hg h.2.2.1 h.2.2.2.1 hq]
        exact guardOk_singleton EQ [] '&' c (by decide) (Ne.symm h.1)
  | amp => decide
  | lt => decide
  | gt => decide
  | quot => decide
  | apos => decide
  | lf => decide
  | cr => decide

theorem hconS18 : ∀ t, OkTok t → serMid2 t = ['&'] ∨ GuardOk ['&'] [] (serMid2 t) := by
  intro t h
  cases t with
  | raw c =>
    by_cases hq : c = '"'
    · subst hq; decide
    · by_cases hg : c = '>'
      · subst hg; decide
      · right
        rw [serMid2_raw c hq hg]
        exact guardOk_singleton ['&'] [] '&' c (by decide) (Ne.symm h.1)
  | amp => decide
  | lt => decide
  | gt => decide
  | quot => decide
  | apos => decide
  | lf => decide
  | cr => decide

theorem hconS19 : ∀ t, OkTok t → fser18 t = ['<'] ∨ GuardOk ['<'] [] (fser18 t) := by
  intro t h
  cases t with
  | raw c =>
    by_cases hq : c = '"'
    · subst hq; decide
    · by_cases hg : c = '>'
      · subst hg; decide
      · right
        rw [fser18_raw c h.1 hq hg]
        exact guardOk_singleton ['<'] [] '<' c (by decide) (Ne.symm h.2.1)
  | amp => decide
  | lt => decide
  | gt => decide
  | quot => decide
  | apos => decide
  | lf => decide
  | cr => decide

theorem hconS20 : ∀ t, OkTok t → fser19 t = ['"'] ∨ GuardOk ['"'] [] (fser19 t) := by
  intro t h
  cases t with
  | raw c =>
    by_cases hq : c = '"'
    · subst hq; decide
    · by_cases hg : c = '>'
      · subst hg; decide
      · right
        rw [fser19_raw c h.1 h.2.1 hq hg]
        exact guardOk_singleton ['"'] [] '"' c (by decide) (Ne.symm hq)
  | amp => decide
  | lt => decide
  | gt => decide
  | quot => decide
  | apos => decide
  | lf => decide
  | cr => decide

theorem hconS21 : ∀ t, OkTok t → fser20 t = ['>'] ∨ GuardOk ['>'] [] (fser20 t) := by
  intro t h
  cases t with
  | raw c =>
    by_cases hq : c = '"'
    · subst hq; decide
    · by_cases hg : c = '>'
      · subst hg; decide
      · right
        rw [fser20_raw c h.1 h.2.1 hq hg]
        exact guardOk_singleton ['>'] [] '>' c (by decide) (Ne.symm hg)
  | amp => decide
  | lt => decide
  | gt => decide
  | quot => decide
  | apos => decide
  | lf => decide
  | cr => decide

theorem hconS22 : ∀ t, OkTok t → fser21 t = T10 ∨ GuardOk T10 D22 (fser21 t) := by
  intro t h
  cases t with
  | raw c =>
    by_cases hq : c = '"'
    · subst hq; decide
    · by_cases hg : c = '>'
      · subst hg; decide
      · right
        rw [fser21_raw c h.1 h.2.1 hq hg]
        exact guardOk_singleton T10 D22 '_' c (by decide) (Ne.symm h.2.2.2.2)
  | amp => decide
  | lt => decide
  | gt => decide
  | quot => decide
  | apos => decide
  | lf => decide
  | cr => decide

theorem hconS23 : ∀ t, OkTok t → fser22 t = T13 ∨ GuardOk T13 D23 (fser22 t) := by
  intro t h
  cases t with
  | raw c =>
    by_cases hq : c = '"'
    · subst hq; decide
    · by_cases hg : c = '>'
      · subst hg; decide
      · right
        rw [fser22_raw c h.1 h.2.1 hq hg]
        exact guardOk_singleton T13 D23 '_' c (by decide) (Ne.symm h.2.2.2.2)
  | amp => decide
  | lt => decide
  | gt => decide
  | quot => decide
  | apos => decide
  | lf => decide
  | cr => decide

theorem hconS24 : ∀ t, OkTok t → fser23 t = TQ ∨ GuardOk TQ [] (fser23 t) := by
  intro t h
  cases t with
  | raw c =>
    by_cases hq : c = '"'
    · subst hq; decide
    · by_cases hg : c = '>'
      · subst hg; decide
      · right
        rw [fser23_raw c h.1 h.2.1 hq hg]
        exact guardOk_singleton TQ [] '_' c (by decide) (Ne.symm h.2.2.2.2)
  | amp => decide
  | lt => decide
  | gt => decide
  | quot => decide
  | apos => decide
  | lf => decide
  | cr => decide

theorem hconIS : ∀ t, OkTok t → serTok t = E10 ∨ GuardOk E10 [] (serTok t) := by
  intro t h
  cases t with
  | raw c =>
    by_cases hq : c = '"'
    · subst hq; decide
    · by_cases hg : c = '>'
      · subst hg; decide
      · right
        rw [serTok_raw c hq hg]
        exact guardOk_singleton E10 [] '&' c (by decide) (Ne.symm h.1)
  | amp => decide
  | lt => decide
  | gt => decide
  | quot => decide
  | apos => decide
  | lf => decide
  | cr => decide

theorem isPrefixOf_singleton_false (d : List Char) (c : Char) (h : 1 < d.length) :
    d.isPrefixOf [c] = false := by
  apply isPrefixOf_false_of_short
  simpa using h

theorem noPre8 : ∀ ts : List Tok, OkToks ts → ∀ d ∈ D8,
    d.isPrefixOf ((ts.map fser7).flatten) = false := by
  intro ts
  induction ts with
  | nil =>
    intro _ d hd
    simp only [List.map_nil, List.flatten_nil]
    simp only [D8, List.mem_cons, List.not_mem_nil, or_false] at hd
    rcases hd with rfl | rfl | rfl | rfl | rfl <;> decide
  | cons t ts ih =>
    intro hok d hd
    have hokt : OkTok t := hok t (List.mem_cons_self t ts)
    have hok2 : OkToks ts := fun u hu => hok u (List.mem_cons_of_mem t hu)
    rw [List.map_cons, List.flatten_cons]
    simp only [D8, List.mem_cons, List.not_mem_nil, or_false] at hd
    cases t with
    | raw c =>
      obtain ⟨h1, h2, h3, h4, h5⟩ := hokt
      by_cases hg : c = '>'
      · subst hg
        rw [show fser7 (Tok.raw '>') = "&gt;".data from by decide]
        rcases hd with rfl | rfl | rfl | rfl | rfl <;>
          exact noPre_step _ _ _ (by decide) (by decide)
      · rw [fser7_raw c h1 h2 hg]
        rcases hd with rfl | rfl | rfl | rfl | rfl
        · exact noPre_step _ _ _ (isPrefixOf_singleton_false _ c (by decide))
            (singleton_not_prefix_headne c _ '_' (by decide) h5)
        · by_cases hc : c = 'X'
          · subst hc
            refine noPre_step_cont _ _ _ (isPrefixOf_false_of_short _ _ (by decide)) ?_
            exact ih hok2 (PH10.drop 3) (by decide)
          · exact noPre_step _ _ _ (isPrefixOf_singleton_false _ c (by decide))
              (singleton_not_prefix_headne c _ 'X' (by decide) hc)
        · by_cases hc : c = 'M'
          · subst hc
            refine noPre_step_cont _ _ _ (isPrefixOf_false_of_short _ _ (by decide)) ?_
            exact ih hok2 (PH10.drop 4) (by decide)
          · exact noPre_step _ _ _ (isPrefixOf_singleton_false _ c (by decide))
              (singleton_not_prefix_headne c _ 'M' (by decide) hc)
        · by_cases hc : c = 'L'
          · subst hc
            refine noPre_step_cont _ _ _ (isPrefixOf_false_of_short _ _ (by decide)) ?_
            exact ih hok2 (PH10.drop 5) (by decide)
          · exact noPre_step _ _ _ (isPrefixOf_singleton_false _ c (by decide))
              (singleton_not_prefix_headne c _ 'L' (by decide) hc)
        · exact noPre_step _ _ _ (isPrefixOf_singleton_false _ c (by decide))
            (singleton_not_prefix_headne c _ '_' (by decide) h5)
    | amp =>
      rcases hd with rfl | rfl | rfl | rfl | rfl <;>
        exact noPre_step _ _ _ (by decide) (by decide)
    | lt =>
      rcases hd with rfl | rfl | rfl | rfl | rfl <;>
        exact noPre_step _ _ _ (by decide) (by decide)
    | gt =>
      rcases hd with rfl | rfl | rfl | rfl | rfl <;>
        exact noPre_step _ _ _ (by decide) (by decide)
    | quot =>
      rcases hd with rfl | rfl | rfl | rfl | rfl <;>
        exact noPre_step _ _ _ (by decide) (by decide)
    | apos =>
      rcases hd with rfl | rfl | rfl | rfl | rfl <;>
        exact noPre_step _ _ _ (by decide) (by decide)
    | lf =>
      rcases hd with rfl | rfl | rfl | rfl | rfl <;>
        exact noPre_step _ _ _ (by decide) (by decide)
    | cr =>
      rcases hd with rfl | rfl | rfl | rfl | rfl <;>
        exact noPre_step _ _ _ (by decide) (by decide)

theorem noPre9 : ∀ ts : List Tok, OkToks ts → ∀ d ∈ D9,
    d.isPrefixOf ((ts.map fser8).flatten) = false := by
  intro ts
  induction ts with
  | nil =>
    intro _ d hd
    simp only [List.map_nil, List.flatten_nil]
    simp only [D9, List.mem_cons, List.not_mem_nil, or_false] at hd
    rcases hd with rfl | rfl | rfl | rfl | rfl <;> decide
  | cons t ts ih =>
    intro hok d hd
    have hokt : OkTok t := hok t (List.mem_cons_self t ts)
    have hok2 : OkToks ts := fun u hu => hok u (List.mem_cons_of_mem t hu)
    rw [List.map_cons, List.flatten_cons]
    simp only [D9, List.mem_cons, List.not_mem_nil, or_false] at hd
    cases t with
    | raw c =>
      obtain ⟨h1, h2, h3, h4, h5⟩ := hokt
      by_cases hg : c = '>'
      · subst hg
        rw [show fser8 (Tok.raw '>') = "&gt;".data from by decide]
        rcases hd with rfl | rfl | rfl | rfl | rfl <;>
          exact noPre_step _ _ _ (by decide) (by decide)
      · rw [fser8_raw c h1 h2 hg]
        rcases hd with rfl | rfl | rfl | rfl | rfl
        · exact noPre_step _ _ _ (isPrefixOf_singleton_false _ c (by decide))
            (singleton_not_prefix_headne c _ '_' (by decide) h5)
        · by_cases hc : c = 'X'
          · subst hc
            refine noPre_step_cont _ _ _ (isPrefixOf_false_of_short _ _ (by decide)) ?_
            exact ih hok2 (PH13.drop 3) (by decide)
          · exact noPre_step _ _ _ (isPrefixOf_singleton_false _ c (by decide))
              (singleton_not_prefix_headne c _ 'X' (by decide) hc)
        · by_cases hc : c = 'M'
          · subst hc
            refine noPre_step_cont _ _ _ (isPrefixOf_false_of_short _ _ (by decide)) ?_
            exact ih hok2 (PH13.drop 4) (by decide)
          · exact noPre_step _ _ _ (isPrefixOf_singleton_false _ c (by decide))
              (singleton_not_prefix_headne c _ 'M' (by decide) hc)
        · by_cases hc : c = 'L'
          · subst hc
            refine noPre_step_cont _ _ _ (isPrefixOf_false_of_short _ _ (by decide)) ?_
            exact ih hok2 (PH13.drop 5) (by decide)
          · exact noPre_step _ _ _ (isPrefixOf_singleton_false _ c (by decide))
              (singleton_not_prefix_headne c _ 'L' (by decide) hc)
        · exact noPre_step _ _ _ (isPrefixOf_singleton_false _ c (by decide))
            (singleton_not_prefix_headne c _ '_' (by decide) h5)
    | amp =>
      rcases hd with rfl | rfl | rfl | rfl | rfl <;>
        exact noPre_step _ _ _ (by decide) (by decide)
    | lt =>
      rcases hd with rfl | rfl | rfl | rfl | rfl <;>
        exact noPre_step _ _ _ (by decide) (by decide)
    | gt =>
      rcases hd with rfl | rfl | rfl | rfl | rfl <;>
        exact noPre_step _ _ _ (by decide) (by decide)
    | quot =>
      rcases hd with rfl | rfl | rfl | rfl | rfl <;>
        exact noPre_step _ _ _ (by decide) (by decide)
    | apos =>
      rcases hd with rfl | rfl | rfl | rfl | rfl <;>
        exact noPre_step _ _ _ (by decide) (by decide)
    | lf =>
      rcases hd with rfl | rfl | rfl | rfl | rfl <;>
        exact noPre_step _ _ _ (by decide) (by decide)
    | cr =>
      rcases hd with rfl | rfl | rfl | rfl | rfl <;>
        exact noPre_step _ _ _ (by decide) (by decide)

theorem noPre22 : ∀ ts : List Tok, OkToks ts → ∀ d ∈ D22,
    d.isPrefixOf ((ts.map fser21).flatten) = false := by
  intro ts
  induction ts with
  | nil =>
    intro _ d hd
    simp only [List.map_nil, List.flatten_nil]
    simp only [D22, List.mem_cons, List.not_mem_nil, or_false] at hd
    rcases hd with rfl | rfl | rfl | rfl | rfl | rfl <;> decide
  | cons t ts ih =>
    intro hok d hd
    have hokt : OkTok t := hok t (List.mem_cons_self t ts)
    have hok2 : OkToks ts := fun u hu => hok u (List.mem_cons_of_mem t hu)
    rw [List.map_cons, List.flatten_cons]
    simp only [D22, List.mem_cons, List.not_mem_nil, or_false] at hd
    cases t with
    | raw c =>
      obtain ⟨h1, h2, h3, h4, h5⟩ := hokt
      by_cases hq : c = '"'
      · subst hq
        rw [show fser21 (Tok.raw '"') = TQ from by decide]
        rcases hd with rfl | rfl | rfl | rfl | rfl | rfl <;>
          exact noPre_step _ _ _ (by decide) (by decide)
      · by_cases hg : c = '>'
        · subst hg
          rw [show fser21 (Tok.raw '>') = "&gt;".data from by decide]
          rcases hd with rfl | rfl | rfl | rfl | rfl | rfl <;>
            exact noPre_step _ _ _ (by decide) (by decide)
        · rw [fser21_raw c h1 h2 hq hg]
          rcases hd with rfl | rfl | rfl | rfl | rfl | rfl
          · exact noPre_step _ _ _ (isPrefixOf_singleton_false _ c (by decide))
              (singleton_not_prefix_headne c _ '_' (by decide) h5)
          · by_cases hc : c = 'T'
            · subst hc
              refine noPre_step_cont _ _ _ (isPrefixOf_false_of_short _ _ (by decide)) ?_
              exact ih hok2 (T10.drop 3) (by decide)
            · exact noPre_step _ _ _ (isPrefixOf_singleton_false _ c (by decide))
                (singleton_not_prefix_headne c _ 'T' (by decide) hc)
          · by_cases hc : c = 'E'
            · subst hc
              refine noPre_step_cont _ _ _ (isPrefixOf_false_of_short _ _ (by decide)) ?_
              exact ih hok2 (T10.drop 4) (by decide)
            · exact noPre_step _ _ _ (isPrefixOf_singleton_false _ c (by decide))
                (singleton_not_prefix_headne c _ 'E' (by decide) hc)
          · by_cases hc : c = 'M'
            · subst hc
              refine noPre_step_cont _ _ _ (isPrefixOf_false_of_short _ _ (by decide)) ?_
              exact ih hok2 (T10.drop 5) (by decide)
            · exact noPre_step _ _ _ (isPrefixOf_singleton_false _ c (by decide))
                (singleton_not_prefix_headne c _ 'M' (by decide) hc)
          · by_cases hc : c = 'P'
            · subst hc
              refine noPre_step_cont _ _ _ (isPrefixOf_false_of_short _ _ (by decide)) ?_
              exact ih hok2 (T10.drop 6) (by decide)
            · exact noPre_step _ _ _ (isPrefixOf_singleton_false _ c (by decide))
                (singleton_not_prefix_headne c _ 'P' (by decide) hc)
          · exact noPre_step _ _ _ (isPrefixOf_singleton_false _ c (by decide))
              (singleton_not_prefix_headne c _ '_' (by decide) h5)
    | amp =>
      rcases hd with rfl | rfl | rfl | rfl | rfl | rfl <;>
        exact noPre_step _ _ _ (by decide) (by decide)
    | lt =>
      rcases hd with rfl | rfl | rfl | rfl | rfl | rfl <;>
        exact noPre_step _ _ _ (by decide) (by decide)
    | gt =>
      rcases hd with rfl | rfl | rfl | rfl | rfl | rfl <;>
        exact noPre_step _ _ _ (by decide) (by decide)
    | quot =>
      rcases hd with rfl | rfl | rfl | rfl | rfl | rfl <;>
        exact noPre_step _ _ _ (by decide) (by decide)
    | apos =>
      rcases hd with rfl | rfl | rfl | rfl | rfl | rfl <;>
        exact noPre_step _ _ _ (by decide) (by decide)
    | lf =>
      rcases hd with rfl | rfl | rfl | rfl | rfl | rfl <;>
        exact noPre_step _ _ _ (by decide) (by decide)
    | cr =>
      rcases hd with rfl | rfl | rfl | rfl | rfl | rfl <;>
        exact noPre_step _ _ _ (by decide) (by decide)

theorem noPre23 : ∀ ts : List Tok, OkToks ts → ∀ d ∈ D23,
    d.isPrefixOf ((ts.map fser22).flatten) = false := by
  intro ts
  induction ts with
  | nil =>
    intro _ d hd
    simp only [List.map_nil, List.flatten_nil]
    simp only [D23, List.mem_cons, List.not_mem_nil, or_false] at hd
    rcases hd with rfl | rfl | rfl | rfl | rfl | rfl <;> decide
  | cons t ts ih =>
    intro hok d hd
    have hokt : OkTok t := hok t (List.mem_cons_self t ts)
    have hok2 : OkToks ts := fun u hu => hok u (List.mem_cons_of_mem t hu)
    rw [List.map_cons, List.flatten_cons]
    simp only [D23, List.mem_cons, List.not_mem_nil, or_false] at hd
    cases t with
    | raw c =>
      obtain ⟨h1, h2, h3, h4, h5⟩ := hokt
      by_cases hq : c = '"'
      · subst hq
        rw [show fser22 (Tok.raw '"') = TQ from by decide]
        rcases hd with rfl | rfl | rfl | rfl | rfl | rfl <;>
          exact noPre_step _ _ _ (by decide) (by decide)
      · by_cases hg : c = '>'
        · subst hg
          rw [show fser22 (Tok.raw '>') = "&gt;".data from by decide]
          rcases hd with rfl | rfl | rfl | rfl | rfl | rfl <;>
            exact noPre_step _ _ _ (by decide) (by decide)
        · rw [fser22_raw c h1 h2 hq hg]
          rcases hd with rfl | rfl | rfl | rfl | rfl | rfl
          · exact noPre_step _ _ _ (isPrefixOf_singleton_false _ c (by decide))
              (singleton_not_prefix_headne c _ '_' (by decide) h5)
          · by_cases hc : c = 'T'
            · subst hc
              refine noPre_step_cont _ _ _ (isPrefixOf_false_of_short _ _ (by decide)) ?_
              exact ih hok2 (T13.drop 3) (by decide)
            · exact noPre_step _ _ _ (isPrefixOf_singleton_false _ c (by decide))
                (singleton_not_prefix_headne c _ 'T' (by decide) hc)
          · by_cases hc : c = 'E'
            · subst hc
              refine noPre_step_cont _ _ _ (isPrefixOf_false_of_short _ _ (by decide)) ?_
              exact ih hok2 (T13.drop 4) (by decide)
            · exact noPre_step _ _ _ (isPrefixOf_singleton_false _ c (by decide))
                (singleton_not_prefix_headne c _ 'E' (by decide) hc)
          · by_cases hc : c = 'M'
            · subst hc
              refine noPre_step_cont _ _ _ (isPrefixOf_false_of_short _ _ (by decide)) ?_
              exact ih hok2 (T13.drop 5) (by decide)
            · exact noPre_step _ _ _ (isPrefixOf_singleton_false _ c (by decide))
                (singleton_not_prefix_headne c _ 'M' (by decide) hc)
          · by_cases hc : c = 'P'
            · subst hc
              refine noPre_step_cont _ _ _ (isPrefixOf_false_of_short _ _ (by decide)) ?_
              exact ih hok2 (T13.drop 6) (by decide)
            · exact noPre_step _ _ _ (isPrefixOf_singleton_false _ c (by decide))
                (singleton_not_prefix_headne c _ 'P' (by decide) hc)
          · exact noPre_step _ _ _ (isPrefixOf_singleton_false _ c (by decide))
              (singleton_not_prefix_headne c _ '_' (by decide) h5)
    | amp =>
      rcases hd with rfl | rfl | rfl | rfl | rfl | rfl <;>
        exact noPre_step _ _ _ (by decide) (by decide)
    | lt =>
      rcases hd with rfl | rfl | rfl | rfl | rfl | rfl <;>
        exact noPre_step _ _ _ (by decide) (by decide)
    | gt =>
      rcases hd with rfl | rfl | rfl | rfl | rfl | rfl <;>
        exact noPre_step _ _ _ (by decide) (by decide)
    | quot =>
      rcases hd with rfl | rfl | rfl | rfl | rfl | rfl <;>
        exact noPre_step _ _ _ (by decide) (by decide)
    | apos =>
      rcases hd with rfl | rfl | rfl | rfl | rfl | rfl <;>
        exact noPre_step _ _ _ (by decide) (by decide)
    | lf =>
      rcases hd with rfl | rfl | rfl | rfl | rfl | rfl <;>
        exact noPre_step _ _ _ (by decide) (by decide)
    | cr =>
      rcases hd with rfl | rfl | rfl | rfl | rfl | rfl <;>
        exact noPre_step _ _ _ (by decide) (by decide)

theorem hsc3 : ∀ t, OkTok t → DecSelfCont (fser3 t) := by
  intro t h
  cases t with
  | raw c =>
    rw [fser3_raw c]
    exact decSelfCont_no_amp [c] (by simp only [List.mem_singleton]; exact Ne.symm h.1)
  | amp =>
    rw [show fser3 Tok.amp = "&amp;".data from by decide]
    exact decSelfCont_ent_amp
  | lt =>
    rw [show fser3 Tok.lt = "&lt;".data from by decide]
    exact decSelfCont_ent_lt
  | gt =>
    rw [show fser3 Tok.gt = "&gt;".data from by decide]
    exact decSelfCont_ent_gt
  | quot =>
    rw [show fser3 Tok.quot = PHQ from by decide]
    exact decSelfCont_no_amp PHQ (by decide)
  | apos =>
    rw [show fser3 Tok.apos = "&apos;".data from by decide]
    exact decSelfCont_ent_apos
  | lf =>
    rw [show fser3 Tok.lf = PH10 from by decide]
    exact decSelfCont_no_amp PH10 (by decide)
  | cr =>
    rw [show fser3 Tok.cr = PH13 from by decide]
    exact decSelfCont_no_amp PH13 (by decide)

theorem pw_serMid : ∀ t, OkTok t → decPiece fser3 t = serMid t := by
  intro t h
  cases t with
  | raw c =>
    show decodeXml (fser3 (Tok.raw c)) = serMid (Tok.raw c)
    rw [fser3_raw c]
    exact decodeXml_no_amp [c] (by simp only [List.mem_singleton]; exact Ne.symm h.1)
  | amp =>
    show decodeXml (fser3 Tok.amp) = serMid Tok.amp
    rw [show fser3 Tok.amp = "&amp;".data from by decide]
    exact decodeVal_amp
  | lt =>
    show decodeXml (fser3 Tok.lt) = serMid Tok.lt
    rw [show fser3 Tok.lt = "&lt;".data from by decide]
    exact decodeVal_lt
  | gt =>
    show decodeXml (fser3 Tok.gt) = serMid Tok.gt
    rw [show fser3 Tok.gt = "&gt;".data from by decide]
    exact decodeVal_gt
  | quot =>
    show decodeXml (fser3 Tok.quot) = serMid Tok.quot
    rw [show fser3 Tok.quot = PHQ from by decide]
    exact decodeXml_no_amp PHQ (by decide)
  | apos =>
    show decodeXml (fser3 Tok.apos) = serMid Tok.apos
    rw [show fser3 Tok.apos = "&apos;".data from by decide]
    exact decodeVal_apos
  | lf =>
    show decodeXml (fser3 Tok.lf) = serMid Tok.lf
    rw [show fser3 Tok.lf = PH10 from by decide]
    exact decodeXml_no_amp PH10 (by decide)
  | cr =>
    show decodeXml (fser3 Tok.cr) = serMid Tok.cr
    rw [show fser3 Tok.cr = PH13 from by decide]
    exact decodeXml_no_amp PH13 (by decide)

theorem hsc16 : ∀ t, OkTok t → DecSelfCont (fser16 t) := by
  intro t h
  cases t with
  | raw c =>
    by_cases hq : c = '"'
    · subst hq
      rw [show fser16 (Tok.raw '"') = TQ from by decide]
      exact decSelfCont_no_amp TQ (by decide)
    · by_cases hg : c = '>'
      · subst hg
        rw [show fser16 (Tok.raw '>') = "&gt;".data from by decide]
        exact decSelfCont_ent_gt
      · rw [fser16_raw c h.1 h.2.1 hg h.2.2.1 h.2.2.2.1 hq]
        exact decSelfCont_no_amp [c] (by simp only [List.mem_singleton]; exact Ne.symm h.1)
  | amp =>
    rw [show fser16 Tok.amp = "&amp;".data from by decide]
    exact decSelfCont_ent_amp
  | lt =>
    rw [show fser16 Tok.lt = "&lt;".data from by decide]
    exact decSelfCont_ent_lt
  | gt =>
    rw [show fser16 Tok.gt = "&gt;".data from by decide]
    exact decSelfCont_ent_gt
  | quot =>
    rw [show fser16 Tok.quot = TQ from by decide]
    exact decSelfCont_no_amp TQ (by decide)
  | apos =>
    rw [show fser16 Tok.apos = ['\''] from by decide]
    exact decSelfCont_no_amp ['\''] (by decide)
  | lf =>
    rw [show fser16 Tok.lf = T10 from by decide]
    exact decSelfCont_no_amp T10 (by decide)
  | cr =>
    rw [show fser16 Tok.cr = T13 from by decide]
    exact decSelfCont_no_amp T13 (by decide)

theorem pw_serMid2 : ∀ t, OkTok t → decPiece fser16 t = serMid2 t := by
  intro t h
  cases t with
  | raw c =>
    show decodeXml (fser16 (Tok.raw c)) = serMid2 (Tok.raw c)
    by_cases hq : c = '"'
    · subst hq
      rw [show fser16 (Tok.raw '"') = TQ from by decide]
      exact decodeXml_no_amp TQ (by decide)
    · by_cases hg : c = '>'
      · subst hg
        rw [show fser16 (Tok.raw '>') = "&gt;".data from by decide]
        exact decodeVal_gt
      · rw [fser16_raw c h.1 h.2.1 hg h.2.2.1 h.2.2.2.1 hq, serMid2_raw c hq hg]
        exact decodeXml_no_amp [c] (by simp only [List.mem_singleton]; exact Ne.symm h.1)
  | amp =>
    show decodeXml (fser16 Tok.amp) = serMid2 Tok.amp
    rw [show fser16 Tok.amp = "&amp;".data from by decide]
    exact decodeVal_amp
  | lt =>
    show decodeXml (fser16 Tok.lt) = serMid2 Tok.lt
    rw [show fser16 Tok.lt = "&lt;".data from by decide]
    exact decodeVal_lt
  | gt =>
    show decodeXml (fser16 Tok.gt) = serMid2 Tok.gt
    rw [show fser16 Tok.gt = "&gt;".data from by decide]
    exact decodeVal_gt
  | quot =>
    show decodeXml (fser16 Tok.quot) = serMid2 Tok.quot
    rw [show fser16 Tok.quot = TQ from by decide]
    exact decodeXml_no_amp TQ (by decide)
  | apos =>
    show decodeXml (fser16 Tok.apos) = serMid2 Tok.apos
    rw [show fser16 Tok.apos = ['\''] from by decide]
    exact decodeXml_no_amp ['\''] (by decide)
  | lf =>
    show decodeXml (fser16 Tok.lf) = serMid2 Tok.lf
    rw [show fser16 Tok.lf = T10 from by decide]
    exact decodeXml_no_amp T10 (by decide)
  | cr =>
    show decodeXml (fser16 Tok.cr) = serMid2 Tok.cr
    rw [show fser16 Tok.cr = T13 from by decide]
    exact decodeXml_no_amp T13 (by decide)

theorem pw_serTok : ∀ t, OkTok t → fser24 t = serTok t := by
  intro t h
  cases t with
  | raw c =>
    by_cases hq : c = '"'
    · subst hq; decide
    · by_cases hg : c = '>'
      · subst hg; decide
      · rw [fser24_raw c h.1 h.2.1 hq hg, serTok_raw c hq hg]
  | amp => decide
  | lt => decide
  | gt => decide
  | quot => decide
  | apos => decide
  | lf => decide
  | cr => decide

theorem hscI : ∀ t, OkTok t → DecSelfCont (fser1 t) := by
  intro t h
  cases t with
  | raw c =>
    rw [fser1_raw c]
    exact decSelfCont_no_amp [c] (by simp only [List.mem_singleton]; exact Ne.symm h.1)
  | amp =>
    rw [show fser1 Tok.amp = "&amp;".data from by decide]
    exact decSelfCont_ent_amp
  | lt =>
    rw [show fser1 Tok.lt = "&lt;".data from by decide]
    exact decSelfCont_ent_lt
  | gt =>
    rw [show fser1 Tok.gt = "&gt;".data from by decide]
    exact decSelfCont_ent_gt
  | quot =>
    rw [show fser1 Tok.quot = EQ from by decide]
    exact decSelfCont_ent_quot
  | apos =>
    rw [show fser1 Tok.apos = "&apos;".data from by decide]
    exact decSelfCont_ent_apos
  | lf =>
    rw [show fser1 Tok.lf = PH10 from by decide]
    exact decSelfCont_no_amp PH10 (by decide)
  | cr =>
    rw [show fser1 Tok.cr = E13 from by decide]
    exact decSelfCont_ent_e13

theorem pw_igTok : ∀ t, OkTok t → decPiece fser1 t = igTok t := by
  intro t h
  cases t with
  | raw c =>
    show decodeXml (fser1 (Tok.raw c)) = igTok (Tok.raw c)
    rw [fser1_raw c]
    exact decodeXml_no_amp [c] (by simp only [List.mem_singleton]; exact Ne.symm h.1)
  | amp =>
    show decodeXml (fser1 Tok.amp) = igTok Tok.amp
    rw [show fser1 Tok.amp = "&amp;".data from by decide]
    exact decodeVal_amp
  | lt =>
    show decodeXml (fser1 Tok.lt) = igTok Tok.lt
    rw [show fser1 Tok.lt = "&lt;".data from by decide]
    exact decodeVal_lt
  | gt =>
    show decodeXml (fser1 Tok.gt) = igTok Tok.gt
    rw [show fser1 Tok.gt = "&gt;".data from by decide]
    exact decodeVal_gt
  | quot =>
    show decodeXml (fser1 Tok.quot) = igTok Tok.quot
    rw [show fser1 Tok.quot = EQ from by decide]
    exact decodeVal_quot
  | apos =>
    show decodeXml (fser1 Tok.apos) = igTok Tok.apos
    rw [show fser1 Tok.apos = "&apos;".data from by decide]
    exact decodeVal_apos
  | lf =>
    show decodeXml (fser1 Tok.lf) = igTok Tok.lf
    rw [show fser1 Tok.lf = PH10 from by decide]
    exact decodeXml_no_amp PH10 (by decide)
  | cr =>
    show decodeXml (fser1 Tok.cr) = igTok Tok.cr
    rw [show fser1 Tok.cr = E13 from by decide]
    exact decodeVal_e13

theorem hscIS : ∀ t, OkTok t → DecSelfCont (fiser t) := by
  intro t h
  cases t with
  | raw c =>
    by_cases hq : c = '"'
    · subst hq
      rw [show fiser (Tok.raw '"') = EQ from by decide]
      exact decSelfCont_ent_quot
    · by_cases hg : c = '>'
      · subst hg
        rw [show fiser (Tok.raw '>') = "&gt;".data from by decide]
        exact decSelfCont_ent_gt
      · rw [fiser_raw c hq hg]
        exact decSelfCont_no_amp [c] (by simp only [List.mem_singleton]; exact Ne.symm h.1)
  | amp =>
    rw [show fiser Tok.amp = "&amp;".data from by decide]
    exact decSelfCont_ent_amp
  | lt =>
    rw [show fiser Tok.lt = "&lt;".data from by decide]
    exact decSelfCont_ent_lt
  | gt =>
    rw [show fiser Tok.gt = "&gt;".data from by decide]
    exact decSelfCont_ent_gt
  | quot =>
    rw [show fiser Tok.quot = EQ from by decide]
    exact decSelfCont_ent_quot
  | apos =>
    rw [show fiser Tok.apos = ['\''] from by decide]
    exact decSelfCont_no_amp ['\''] (by decide)
  | lf =>
    rw [show fiser Tok.lf = PH10 from by decide]
    exact decSelfCont_no_amp PH10 (by decide)
  | cr =>
    rw [show fiser Tok.cr = E13 from by decide]
    exact decSelfCont_ent_e13

theorem pw_igTok2 : ∀ t, OkTok t → decPiece fiser t = igTok t := by
  intro t h
  cases t with
  | raw c =>
    show decodeXml (fiser (Tok.raw c)) = igTok (Tok.raw c)
    by_cases hq : c = '"'
    · subst hq
      rw [show fiser (Tok.raw '"') = EQ from by decide]
      exact decodeVal_quot
    · by_cases hg : c = '>'
      · subst hg
        rw [show fiser (Tok.raw '>') = "&gt;".data from by decide]
        exact decodeVal_gt
      · rw [fiser_raw c hq hg]
        exact decodeXml_no_amp [c] (by simp only [List.mem_singleton]; exact Ne.symm h.1)
  | amp =>
    show decodeXml (fiser Tok.amp) = igTok Tok.amp
    rw [show fiser Tok.amp = "&amp;".data from by decide]
    exact decodeVal_amp
  | lt =>
    show decodeXml (fiser Tok.lt) = igTok Tok.lt
    rw [show fiser Tok.lt = "&lt;".data from by decide]
    exact decodeVal_lt
  | gt =>
    show decodeXml (fiser Tok.gt) = igTok Tok.gt
    rw [show fiser Tok.gt = "&gt;".data from by decide]
    exact decodeVal_gt
  | quot =>
    show decodeXml (fiser Tok.quot) = igTok Tok.quot
    rw [show fiser Tok.quot = EQ from by decide]
    exact decodeVal_quot
  | apos =>
    show decodeXml (fiser Tok.apos) = igTok Tok.apos
    rw [show fiser Tok.apos = ['\''] from by decide]
    exact decodeXml_no_amp ['\''] (by decide)
  | lf =>
    show decodeXml (fiser Tok.lf) = igTok Tok.lf
    rw [show fiser Tok.lf = PH10 from by decide]
    exact decodeXml_no_amp PH10 (by decide)
  | cr =>
    show decodeXml (fiser Tok.cr) = igTok Tok.cr
    rw [show fiser Tok.cr = E13 from by decide]
    exact decodeVal_e13

theorem serialize_toks (ts : List Tok) (hok : OkToks ts) :
    serialize_cell_value_noedit (renderToks ts) = (ts.map serTok).flatten := by
  have g0 : renderToks ts = (ts.map Tok.render).flatten := rfl
  have g1 : replaceSub E10 PH10 ((ts.map Tok.render).flatten) = (ts.map fser1).flatten :=
    stage_step2 E10 PH10 (by decide) Tok.render [] (noPre_nilD _) hconS1 ts hok
  have g2 : replaceSub E13 PH13 ((ts.map fser1).flatten) = (ts.map fser2).flatten :=
    stage_step2 E13 PH13 (by decide) fser1 [] (noPre_nilD _) hconS2 ts hok
  have g3 : replaceSub EQ PHQ ((ts.map fser2).flatten) = (ts.map fser3).flatten :=
    stage_step2 EQ PHQ (by decide) fser2 [] (noPre_nilD _) hconS3 ts hok
  have g4 : decodeXml ((ts.map fser3).flatten) = (ts.map serMid).flatten := by
    rw [stage_decode fser3 ts (fun t ht => hsc3 t (hok t ht))]
    exact congrArg List.flatten (List.map_congr_left (fun t ht => pw_serMid t (hok t ht)))
  have g5 : replaceSub ['&'] "&amp;".data ((ts.map serMid).flatten) = (ts.map fser5).flatten :=
    stage_step2 ['&'] "&amp;".data (by decide) serMid [] (noPre_nilD _) hconS5 ts hok
  have g6 : replaceSub ['<'] "&lt;".data ((ts.map fser5).flatten) = (ts.map fser6).flatten :=
    stage_step2 ['<'] "&lt;".data (by decide) fser5 [] (noPre_nilD _) hconS6 ts hok
  have g7 : replaceSub ['>'] "&gt;".data ((ts.map fser6).flatten) = (ts.map fser7).flatten :=
    stage_step2 ['>'] "&gt;".data (by decide) fser6 [] (noPre_nilD _) hconS7 ts hok
  have g8 : replaceSub PH10 E10 ((ts.map fser7).flatten) = (ts.map fser8).flatten :=
    stage_step2 PH10 E10 (by decide) fser7 D8 noPre8 hconS8 ts hok
  have g9 : replaceSub PH13 E13 ((ts.map fser8).flatten) = (ts.map fser9).flatten :=
    stage_step2 PH13 E13 (by decide) fser8 D9 noPre9 hconS9 ts hok
  have g10 : replaceSub PHQ EQ ((ts.map fser9).flatten) = (ts.map fser10).flatten :=
    stage_step2 PHQ EQ (by decide) fser9 [] (noPre_nilD _) hconS10 ts hok
  have g11 : replaceSub ['\n'] E10 ((ts.map fser10).flatten) = (ts.map fser11).flatten :=
    stage_step2 ['\n'] E10 (by decide) fser10 [] (noPre_nilD _) hconS11 ts hok
  have g12 : replaceSub ['\r'] E13 ((ts.map fser11).flatten) = (ts.map fser12).flatten :=
    stage_step2 ['\r'] E13 (by decide) fser11 [] (noPre_nilD _) hconS12 ts hok
  have g13 : replaceSub ['"'] EQ ((ts.map fser12).flatten) = (ts.map fser13).flatten :=
    stage_step2 ['"'] EQ (by decide) fser12 [] (noPre_nilD _) hconS13 ts hok
  have g14 : replaceSub E10 T10 ((ts.map fser13).flatten) = (ts.map fser14).flatten :=
    stage_step2 E10 T10 (by decide) fser13 [] (noPre_nilD _) hconS14 ts hok
  have g15 : replaceSub E13 T13 ((ts.map fser14).flatten) = (ts.map fser15).flatten :=
    stage_step2 E13 T13 (by decide) fser14 [] (noPre_nilD _) hconS15 ts hok
  have g16 : replaceSub EQ TQ ((ts.map fser15).flatten) = (ts.map fser16).flatten :=
    stage_step2 EQ TQ (by decide) fser15 [] (noPre_nilD _) hconS16 ts hok
  have g17 : decodeXml ((ts.map fser16).flatten) = (ts.map serMid2).flatten := by
    rw [stage_decode fser16 ts (fun t ht => hsc16 t (hok t ht))]
    exact congrArg List.flatten (List.map_congr_left (fun t ht => pw_serMid2 t (hok t ht)))
  have g18 : replaceSub ['&'] "&amp;".data ((ts.map serMid2).flatten) = (ts.map fser18).flatten :=
    stage_step2 ['&'] "&amp;".data (by decide) serMid2 [] (noPre_nilD _) hconS18 ts hok
  have g19 : replaceSub ['<'] "&lt;".data ((ts.map fser18).flatten) = (ts.map fser19).flatten :=
    stage_step2 ['<'] "&lt;".data (by decide) fser18 [] (noPre_nilD _) hconS19 ts hok
  have g20 : replaceSub ['"'] EQ ((ts.map fser19).flatten) = (ts.map fser20).flatten :=
    stage_step2 ['"'] EQ (by decide) fser19 [] (noPre_nilD _) hconS20 ts hok
  have g21 : replaceSub ['>'] "&gt;".data ((ts.map fser20).flatten) = (ts.map fser21).flatten :=
    stage_step2 ['>'] "&gt;".data (by decide) fser20 [] (noPre_nilD _) hconS21 ts hok
  have g22 : replaceSub T10 E10 ((ts.map fser21).flatten) = (ts.map fser22).flatten :=
    stage_step2 T10 E10 (by decide) fser21 D22 noPre22 hconS22 ts hok
  have g23 : replaceSub T13 E13 ((ts.map fser22).flatten) = (ts.map fser23).flatten :=
    stage_step2 T13 E13 (by decide) fser22 D23 noPre23 hconS23 ts hok
  have g24 : replaceSub TQ EQ ((ts.map fser23).flatten) = (ts.map fser24).flatten :=
    stage_step2 TQ EQ (by decide) fser23 [] (noPre_nilD _) hconS24 ts hok
  have g25 : (ts.map fser24).flatten = (ts.map serTok).flatten :=
    congrArg List.flatten (List.map_congr_left (fun t ht => pw_serTok t (hok t ht)))
  rw [serialize_eq, g0, g1, g2, g3, g4, g5, g6, g7, g8, g9, g10, g11, g12, g13, g14,
    g15, g16, g17, g18, g19, g20, g21, g22, g23, g24, g25]

theorem ingest_toks (ts : List Tok) (hok : OkToks ts) :
    ingest_cell_value (renderToks ts) =
      replaceSub PH10 E10 (pyStrip ((ts.map igTok).flatten)) := by
  have g0 : renderToks ts = (ts.map Tok.render).flatten := rfl
  have g1 : replaceSub E10 PH10 ((ts.map Tok.render).flatten) = (ts.map fser1).flatten :=
    stage_step2 E10 PH10 (by decide) Tok.render [] (noPre_nilD _) hconS1 ts hok
  have g2 : decodeXml ((ts.map fser1).flatten) = (ts.map igTok).flatten := by
    rw [stage_decode fser1 ts (fun t ht => hscI t (hok t ht))]
    exact congrArg List.flatten (List.map_congr_left (fun t ht => pw_igTok t (hok t ht)))
  rw [show ingest_cell_value (renderToks ts) =
    replaceSub PH10 E10 (pyStrip (decodeXml (replaceSub E10 PH10 (renderToks ts)))) from rfl]
  rw [g0, g1, g2]

theorem ingest_serialize_toks (ts : List Tok) (hok : OkToks ts) :
    ingest_cell_value ((ts.map serTok).flatten) =
      replaceSub PH10 E10 (pyStrip ((ts.map igTok).flatten)) := by
  have g1 : replaceSub E10 PH10 ((ts.map serTok).flatten) = (ts.map fiser).flatten :=
    stage_step2 E10 PH10 (by decide) serTok [] (noPre_nilD _) hconIS ts hok
  have g2 : decodeXml ((ts.map fiser).flatten) = (ts.map igTok).flatten := by
    rw [stage_decode fiser ts (fun t ht => hscIS t (hok t ht))]
    exact congrArg List.flatten (List.map_congr_left (fun t ht => pw_igTok2 t (hok t ht)))
  rw [show ingest_cell_value ((ts.map serTok).flatten) =
    replaceSub PH10 E10 (pyStrip (decodeXml (replaceSub E10 PH10 ((ts.map serTok).flatten)))) from rfl]
  rw [g1, g2]

theorem mem_pyStrip {c : Char} {l : List Char} (h : c ∈ pyStrip l) : c ∈ l := by
  unfold pyStrip at h
  rw [List.mem_reverse] at h
  have h2 := (List.dropWhile_sublist _).subset h
  rw [List.mem_reverse] at h2
  exact (List.dropWhile_sublist _).subset h2

theorem infix_dropWhile_aux (p t : List Char) (c0 : Char) (hh : p.head? = some c0)
    (hc0 : isPySpace c0 = false) :
    ∀ s : List Char, p <:+: ((s ++ p ++ t).dropWhile isPySpace) := by
  intro s
  induction s with
  | nil =>
    cases p with
    | nil => simp at hh
    | cons x xs =>
      rw [List.head?_cons, Option.some.injEq] at hh
      subst hh
      rw [List.nil_append, List.cons_append, List.dropWhile_cons,
        if_neg (by simp [hc0])]
      exact ⟨[], t, by simp⟩
  | cons y s2 ih =>
    rw [List.cons_append, List.cons_append, List.dropWhile_cons]
    by_cases hy : isPySpace y = true
    · rw [if_pos hy]
      exact ih
    · rw [if_neg hy]
      exact List.infix_cons ⟨s2, t, rfl⟩

theorem infix_pyStrip (p : List Char) (c0 cn : Char)
    (hh : p.head? = some c0) (hc0 : isPySpace c0 = false)
    (hl : p.getLast? = some cn) (hcn : isPySpace cn = false)
    (l : List Char) (h : p <:+: l) : p <:+: pyStrip l := by
  obtain ⟨s, t, hst⟩ := h
  have h1 : p <:+: (l.dropWhile isPySpace) := by
    rw [← hst]
    exact infix_dropWhile_aux p t c0 hh hc0 s
  have h2 : p.reverse <:+: ((l.dropWhile isPySpace).reverse) := List.reverse_infix.mpr h1
  obtain ⟨s3, t3, hst3⟩ := h2
  have h3 : p.reverse <:+: (((l.dropWhile isPySpace).reverse).dropWhile isPySpace) := by
    rw [← hst3]
    refine infix_dropWhile_aux p.reverse t3 cn ?_ hcn s3
    rw [List.head?_reverse]
    exact hl
  rw [pyStrip]
  rw [← List.reverse_infix, List.reverse_reverse]
  exact h3

/-- C1: for every admissible cell-source text containing the encoded
line-break entity, ingestion keeps the entity encoded (the entity text is
an infix of the parsed cell text and no literal line feed appears in it),
and the no-edit serialization writes the entity back out (the entity text
is an infix of the output, no literal line feed appears in the output,
and the number of encoded line breaks in the output equals the number in
the input). -/
theorem c1_entity_preservation (ts : List Tok) (hok : OkToks ts) (hlf : Tok.lf ∈ ts) :
    E10 <:+: ingest_cell_value (renderToks ts) ∧
    '\n' ∉ ingest_cell_value (renderToks ts) ∧
    E10 <:+: serialize_cell_value_noedit (renderToks ts) ∧
    '\n' ∉ serialize_cell_value_noedit (renderToks ts) ∧
    countSub E10 (serialize_cell_value_noedit (renderToks ts)) =
      countSub E10 (renderToks ts) := by
  have hig := ingest_toks ts hok
  have hser := serialize_toks ts hok
  refine ⟨?_, ?_, ?_, ?_, ?_⟩
  · rw [hig]
    have hmem : PH10 ∈ ts.map igTok := List.mem_map.mpr ⟨Tok.lf, hlf, rfl⟩
    have hinf : PH10 <:+: (ts.map igTok).flatten := List.infix_of_mem_flatten hmem
    have hstrip : PH10 <:+: pyStrip ((ts.map igTok).flatten) :=
      infix_pyStrip PH10 '_' '_' (by decide) (by decide) (by decide) (by decide) _ hinf
    have hpos := countSub_pos_of_infix PH10 (by decide) _ hstrip
    exact rep_infix_replaceSub PH10 E10 _ hpos
  · rw [hig]
    intro hmem
    rcases mem_replaceSub PH10 E10 _ hmem with hm | hm
    · have h2 := mem_pyStrip hm
      obtain ⟨piece, hp, hcp⟩ := List.mem_flatten.mp h2
      obtain ⟨t, ht, rfl⟩ := List.mem_map.mp hp
      cases t with
      | raw c =>
        have hc := (hok _ ht).2.2.1
        simp only [igTok, List.mem_singleton] at hcp
        exact hc hcp.symm
      | amp => exact absurd hcp (by decide)
      | lt => exact absurd hcp (by decide)
      | gt => exact absurd hcp (by decide)
      | quot => exact absurd hcp (by decide)
      | apos => exact absurd hcp (by decide)
      | lf => exact absurd hcp (by decide)
      | cr => exact absurd hcp (by decide)
    · exact absurd hm (by decide)
  · rw [hser]
    exact List.infix_of_mem_flatten (List.mem_map.mpr ⟨Tok.lf, hlf, rfl⟩)
  · rw [hser]
    intro hmem
    obtain ⟨piece, hp, hcp⟩ := List.mem_flatten.mp hmem
    obtain ⟨t, ht, rfl⟩ := List.mem_map.mp hp
    cases t with
    | raw c =>
      obtain ⟨h1, h2, h3, h4, h5⟩ := hok _ ht
      by_cases hq : c = '"'
      · subst hq; exact absurd hcp (by decide)
      · by_cases hg : c = '>'
        · subst hg; exact absurd hcp (by decide)
        · rw [serTok_raw c hq hg, List.mem_singleton] at hcp
          exact h3 hcp.symm
    | amp => exact absurd hcp (by decide)
    | lt => exact absurd hcp (by decide)
    | gt => exact absurd hcp (by decide)
    | quot => exact absurd hcp (by decide)
    | apos => exact absurd hcp (by decide)
    | lf => exact absurd hcp (by decide)
    | cr => exact absurd hcp (by decide)
  · rw [hser]
    have hcs : ∀ t ∈ ts, serTok t = E10 ∨ allDisagree E10 (serTok t) = true := by
      intro t ht
      cases t with
      | raw c =>
        obtain ⟨h1, h2, h3, h4, h5⟩ := hok _ ht
        by_cases hq : c = '"'
        · subst hq; right; decide
        · by_cases hg : c = '>'
          · subst hg; right; decide
          · right
            rw [serTok_raw c hq hg]
            exact allDisagree_head_ne E10 '&' (by decide) c (Ne.symm h1)
      | amp => right; decide
      | lt => right; decide
      | gt => right; decide
      | quot => right; decide
      | apos => right; decide
      | lf => left; rfl
      | cr => right; decide
    have hcr : ∀ t ∈ ts, Tok.render t = E10 ∨ allDisagree E10 (Tok.render t) = true := by
      intro t ht
      cases t with
      | raw c =>
        right
        rw [show Tok.render (Tok.raw c) = [c] from rfl]
        exact allDisagree_head_ne E10 '&' (by decide) c (Ne.symm (hok _ ht).1)
      | amp => right; decide
      | lt => right; decide
      | gt => right; decide
      | quot => right; decide
      | apos => right; decide
      | lf => left; rfl
      | cr => right; decide
    rw [countSub_flatten E10 (by decide) serTok ts hcs]
    rw [show renderToks ts = (ts.map Tok.render).flatten from rfl]
    rw [countSub_flatten E10 (by decide) Tok.render ts hcr]
    refine List.countP_congr ?_
    intro t ht
    cases t with
    | raw c =>
      obtain ⟨h1, h2, h3, h4, h5⟩ := hok _ ht
      show (serTok (Tok.raw c) == E10) = true ↔ (Tok.render (Tok.raw c) == E10) = true
      by_cases hq : c = '"'
      · subst hq; decide
      · by_cases hg : c = '>'
        · subst hg; decide
        · rw [serTok_raw c hq hg, show Tok.render (Tok.raw c) = [c] from rfl]
    | amp => decide
    | lt => decide
    | gt => decide
    | quot => decide
    | apos => decide
    | lf => decide
    | cr => decide

theorem c1_entity_preservation_witness :
    OkToks [Tok.raw 'A', Tok.lf, Tok.raw 'B'] ∧
    Tok.lf ∈ [Tok.raw 'A', Tok.lf, Tok.raw 'B'] ∧
    (E10 <:+: ingest_cell_value (renderToks [Tok.raw 'A', Tok.lf, Tok.raw 'B']) ∧
     '\n' ∉ ingest_cell_value (renderToks [Tok.raw 'A', Tok.lf, Tok.raw 'B']) ∧
     E10 <:+: serialize_cell_value_noedit (renderToks [Tok.raw 'A', Tok.lf, Tok.raw 'B']) ∧
     '\n' ∉ serialize_cell_value_noedit (renderToks [Tok.raw 'A', Tok.lf, Tok.raw 'B']) ∧
     countSub E10 (serialize_cell_value_noedit (renderToks [Tok.raw 'A', Tok.lf, Tok.raw 'B'])) =
       countSub E10 (renderToks [Tok.raw 'A', Tok.lf, Tok.raw 'B'])) :=
  ⟨by decide, by decide, c1_entity_preservation _ (by decide) (by decide)⟩

/-- C2: serializing with an empty edit ledger returns the document tree
unchanged together with an empty change list, and for every admissible
cell-source text, re-ingesting the no-edit serializer output parses to
the same cell text as ingesting the original: the written document holds
the same encoded values as the one ingested. -/
theorem c2_empty_ledger_roundtrip (sheets : List XSheet) (ts : List Tok) (hok : OkToks ts) :
    update_xml_with_changes sheets [] = (sheets, []) ∧
    ingest_cell_value (serialize_cell_value_noedit (renderToks ts)) =
      ingest_cell_value (renderToks ts) := by
  constructor
  · rw [update_xml_with_changes, if_pos rfl]
  · rw [serialize_toks ts hok, ingest_serialize_toks ts hok, ingest_toks ts hok]

theorem c2_empty_ledger_roundtrip_witness :
    OkToks [Tok.raw 'P', Tok.raw 'O', Tok.lf, Tok.quot] ∧
    (update_xml_with_changes [⟨"Item", []⟩] [] = ([⟨"Item", []⟩], []) ∧
     ingest_cell_value (serialize_cell_value_noedit
       (renderToks [Tok.raw 'P', Tok.raw 'O', Tok.lf, Tok.quot])) =
       ingest_cell_value (renderToks [Tok.raw 'P', Tok.raw 'O', Tok.lf, Tok.quot])) :=
  ⟨by decide, c2_empty_ledger_roundtrip [⟨"Item", []⟩] _ (by decide)⟩
